import Mathlib

/-!
Verification development for the PromQL formatting and linting package
(`pkg/formatting/promql.go`): a shallow embedding of the string scanning,
regex matching and issue-generation logic, together with theorems about the
embedded definitions.

Strings are modelled as `List Char` (the source operates on ASCII PromQL and
YAML text byte-wise; for ASCII the byte-level and char-level views agree).
Go regexes are embedded through a small backtracking matcher (`reRun`) with
leftmost-first (Perl-style) priority, the semantics Go's `regexp` package
documents for submatches; each Go pattern is transcribed as an `RE` value
next to a comment quoting the original pattern.
-/

set_option maxRecDepth 20000

/-- Strings of the embedded program: lists of characters. -/
abbrev Str := List Char

/-- Shorthand to turn a Lean string literal into the `Str` model. -/
def strL (s : String) : Str := s.data

/-- `strings.Contains(s, sub)`: `sub` occurs as a contiguous substring of `s`. -/
def strContains (s sub : Str) : Bool :=
  match s with
  | [] => sub.isEmpty
  | c :: t => sub.isPrefixOf (c :: t) || strContains t sub

/-- Worker of `strCount`: scan one character at a time; `skip > 0` means the
scanner is still inside the previously counted instance (Go jumps over it
with `Index`; consuming it character by character is the same scan). -/
def strCountAux (sub : Str) : Str → Nat → Nat
  | [], _ => 0
  | c :: t, skip =>
    if skip > 0 then strCountAux sub t (skip - 1)
    else if sub.isPrefixOf (c :: t) then strCountAux sub t (sub.length - 1) + 1
    else strCountAux sub t 0

/-- `strings.Count(s, sub)`: the number of non-overlapping instances of `sub`
in `s`, scanned from the left. For an empty `sub` Go returns `len(s) + 1`. -/
def strCount (s sub : Str) : Nat :=
  if sub = [] then s.length + 1 else strCountAux sub s 0

/-- The white-space set of Go's `strings.TrimSpace` (`unicode.IsSpace`),
restricted to ASCII: space, tab, newline, vertical tab, form feed, carriage
return. -/
def isGoSpace (c : Char) : Bool :=
  c = ' ' || c = '\t' || c = '\n' || c = '\x0b' || c = '\x0c' || c = '\r'

/-- `strings.TrimSpace`. -/
def trimSpace (s : Str) : Str := (s.dropWhile isGoSpace).rdropWhile isGoSpace

/-- `strings.Trim(s, string(c))` for a one-character cutset: remove every
leading and trailing occurrence of `c`. -/
def trimChar (s : Str) (c : Char) : Str :=
  (s.dropWhile (· = c)).rdropWhile (· = c)

/-- `strings.TrimSuffix(s, suf)`. -/
def trimSuffix (s suf : Str) : Str :=
  if suf.isSuffixOf s then s.take (s.length - suf.length) else s

/-- Worker of `strSplit`: Go `strings.Split` for a non-empty separator. The
piece built so far is accumulated in reverse; `skip > 0` means the scanner is
still consuming the separator instance it just split at. -/
def strSplitAux (sep : Str) : Str → Str → Nat → List Str
  | [], acc, _ => [acc.reverse]
  | c :: t, acc, skip =>
    if skip > 0 then strSplitAux sep t acc (skip - 1)
    else if sep.isPrefixOf (c :: t) then
      acc.reverse :: strSplitAux sep t [] (sep.length - 1)
    else strSplitAux sep t (c :: acc) 0

/-- `strings.Split(s, sep)`: split around every non-overlapping instance of
`sep` (for an empty separator Go splits into single runes). -/
def strSplit (s sep : Str) : List Str :=
  if sep = [] then s.map (fun c => [c]) else strSplitAux sep s [] 0

/-- `strings.Join(l, sep)`. -/
def strJoin (l : List Str) (sep : Str) : Str :=
  match l with
  | [] => []
  | [x] => x
  | x :: rest => x ++ sep ++ strJoin rest sep

/-- `strings.Replace(s, old, new, 1)`: replace the first instance of `old`
(an empty `old` matches at the beginning of the string). -/
def strReplace1 (s old new : Str) : Str :=
  match old, s with
  | [], _ => new ++ s
  | _ :: _, [] => []
  | oc :: ot, c :: t =>
    if (oc :: ot).isPrefixOf (c :: t) then new ++ t.drop ot.length
    else c :: strReplace1 t (oc :: ot) new

/-- `strings.ToLower`, ASCII (the only case the analysed text exercises). -/
def toLowerStr (s : Str) : Str := s.map Char.toLower

/-- A metric name may contain an upper-case ASCII letter; mirrors the Go
loops `for _, char := range name { if char >= 'A' && char <= 'Z' ... }`. -/
def hasUpperAZ (s : Str) : Bool := s.any (fun c => 'A' ≤ c && c ≤ 'Z')

/-! ### A small regex engine

Backtracking matcher with Perl-style priority: alternation prefers its left
branch, `star` is greedy. This is the submatch semantics Go's `regexp`
documents ("the match ... a backtracking search would have found"). Fuel
bounds the recursion depth; `engineFuel` is comfortably larger than any
depth reachable on the inputs the embedded patterns are run on. -/

/-- Regular expressions: literals, character classes, sequencing,
alternation, greedy star, capture groups, and the zero-width assertions
`\b`, `^` (multiline), `$` (multiline) and end of text. -/
inductive RE where
  | lit : Str → RE
  | cls : (Char → Bool) → RE
  | seq : RE → RE → RE
  | alt : RE → RE → RE
  | star : RE → RE
  | grp : Nat → RE → RE
  | wordB : RE
  | bol : RE
  | eol : RE
  | eos : RE

/-- Captured groups: (group index, start position, end position), most
recent first. -/
abbrev Caps := List (Nat × Nat × Nat)

/-- RE2 word characters `\w = [0-9A-Za-z_]`. -/
def isWordChar (c : Char) : Bool := c.isAlphanum || c = '_'

/-- Is the character at position `i` (if any) a word character? -/
def wordAt (s : Str) (i : Nat) : Bool :=
  match s[i]? with
  | some c => isWordChar c
  | none => false

/-- RE2 `\b`: exactly one side of the position is a word character. -/
def atWordBoundary (s : Str) (pos : Nat) : Bool :=
  (if pos = 0 then false else wordAt s (pos - 1)) != wordAt s pos

/-- The matcher, in continuation-passing style. `reRun s fuel re pos caps k`
tries to match `re` in `s` at `pos` and hands the end position and captures
to `k`; on failure of `k` the next possibility in priority order is tried. -/
def reRun (s : Str) : Nat → RE → Nat → Caps →
    (Nat → Caps → Option (Nat × Caps)) → Option (Nat × Caps)
  | 0, _, _, _, _ => none
  | fuel + 1, re, pos, caps, k =>
    match re with
    | .lit l => if l.isPrefixOf (s.drop pos) then k (pos + l.length) caps else none
    | .cls p =>
      match s[pos]? with
      | some c => if p c then k (pos + 1) caps else none
      | none => none
    | .seq a b => reRun s fuel a pos caps (fun p c => reRun s fuel b p c k)
    | .alt a b =>
      match reRun s fuel a pos caps k with
      | some r => some r
      | none => reRun s fuel b pos caps k
    | .star r =>
      match reRun s fuel r pos caps
          (fun p c => if p = pos then none else reRun s fuel (.star r) p c k) with
      | some res => some res
      | none => k pos caps
    | .grp i r => reRun s fuel r pos caps (fun p c => k p ((i, pos, p) :: c))
    | .wordB => if atWordBoundary s pos then k pos caps else none
    | .bol =>
      if pos = 0 then k pos caps
      else if s[pos - 1]? = some '\n' then k pos caps else none
    | .eol =>
      if pos = s.length then k pos caps
      else if s[pos]? = some '\n' then k pos caps else none
    | .eos => if pos = s.length then k pos caps else none

/-- Fuel that dominates the matcher's recursion depth on `s`. -/
def engineFuel (s : Str) : Nat := 8 * s.length + 1000

/-- Match `re` at exactly position `pos` (used for `^`-anchored patterns). -/
def reMatchAt (s : Str) (re : RE) (pos : Nat) : Option (Nat × Caps) :=
  reRun s (engineFuel s) re pos [] (fun p c => some (p, c))

/-- Scan positions `pos, pos+1, ...` (at most `lim` of them) and return the
leftmost match: (start, end, captures). -/
def reFindFrom (s : Str) (re : RE) : Nat → Nat → Option (Nat × Nat × Caps)
  | 0, _ => none
  | lim + 1, pos =>
    match reMatchAt s re pos with
    | some (e, caps) => some (pos, e, caps)
    | none => reFindFrom s re lim (pos + 1)

/-- The leftmost match of `re` in `s` (Go `FindString`/`FindStringSubmatch`). -/
def reFind (s : Str) (re : RE) : Option (Nat × Nat × Caps) :=
  reFindFrom s re (s.length + 1) 0

/-- Go `MatchString`. -/
def reMatches (s : Str) (re : RE) : Bool := (reFind s re).isSome

/-- Worker of `reFindAll`: successive non-overlapping leftmost matches,
resuming after the end of each match (one position further for an empty
match, as Go does). -/
def reFindAllFrom (s : Str) (re : RE) : Nat → Nat → List (Nat × Nat × Caps)
  | 0, _ => []
  | lim + 1, pos =>
    match reFindFrom s re (s.length + 1 - pos) pos with
    | none => []
    | some (st, en, caps) =>
      (st, en, caps) :: reFindAllFrom s re lim (if en > st then en else st + 1)

/-- Go `FindAllString…(-1)`: every successive non-overlapping match. -/
def reFindAll (s : Str) (re : RE) : List (Nat × Nat × Caps) :=
  reFindAllFrom s re (s.length + 1) 0

/-- The text of capture group `i` (`""` when the group did not participate,
as Go reports it). -/
def capStr (s : Str) (caps : Caps) (i : Nat) : Str :=
  match caps.find? (fun t => t.1 == i) with
  | some t => (s.take t.2.2).drop t.2.1
  | none => []

/-- Right-nested sequencing of a pattern list. -/
def reSeqList : List RE → RE
  | [] => .lit []
  | [r] => r
  | r :: rest => .seq r (reSeqList rest)

/-- Alternation of a pattern list, preferring earlier entries. -/
def reAltList : List RE → RE
  | [] => .lit []
  | [r] => r
  | r :: rest => .alt r (reAltList rest)

/-- RE2 `\s = [\t\n\f\r ]`. -/
def isREspace (c : Char) : Bool :=
  c = ' ' || c = '\t' || c = '\n' || c = '\x0c' || c = '\r'

/-- The class `\s`. -/
def wsRE : RE := .cls isREspace

/-- The class `.` (anything but a newline). -/
def dotRE : RE := .cls (fun c => c != '\n')

/-- `r+` as `r r*` (greedy). -/
def plusRE (r : RE) : RE := .seq r (.star r)

/-- `r?` (greedy: prefers to match). -/
def optRE (r : RE) : RE := .alt r (.lit [])

/-- The left brace character, `{`. -/
def lbrace : Char := Char.ofNat 123

/-- The right brace character, `}`. -/
def rbrace : Char := Char.ofNat 125

example : strContains (strL "sum(a) / sum(b)") (strL " / ") = true := by decide
example : strCount (strL " and and ") (strL " and ") = 1 := by decide
example : strSplit (strL "a:b:c") (strL ":") = [strL "a", strL "b", strL "c"] := by decide
example : trimSpace (strL "  x y  ") = strL "x y" := by decide

/-! ### The Go regular expressions of `promql.go`, transcribed -/

/-- First character of a metric identifier: `[a-zA-Z_:]`. -/
def isMetricFirst (c : Char) : Bool := c.isAlpha || c = '_' || c = ':'

/-- Later characters of a metric identifier: `[a-zA-Z0-9_:]`. -/
def isMetricRest (c : Char) : Bool := isMetricFirst c || c.isDigit

/-- First character of a label identifier: `[a-zA-Z_]`. -/
def isLabelFirst (c : Char) : Bool := c.isAlpha || c = '_'

/-- Later characters of a label identifier: `[a-zA-Z0-9_]`. -/
def isLabelRest (c : Char) : Bool := isLabelFirst c || c.isDigit

/-- The class `[^)]`. -/
def nonParenRE : RE := .cls (fun c => c != ')')

/-- The alternation `(by|without)`. -/
def byWithoutRE : RE := reAltList [.lit (strL "by"), .lit (strL "without")]

/-- `extractTrailingAggregation`'s pattern `\)\s+(by|without)\s*\([^)]+\)\s*$`. -/
def trailingAggRE : RE :=
  reSeqList [.lit (strL ")"), plusRE wsRE, byWithoutRE, .star wsRE,
    .lit (strL "("), plusRE nonParenRE, .lit (strL ")"), .star wsRE, .eos]

/-- `formatPromQLMultiline`'s label pattern `by\s*\(([^)]+)\)`. -/
def byLabelsRE : RE :=
  reSeqList [.lit (strL "by"), .star wsRE, .lit (strL "("),
    .grp 1 (plusRE nonParenRE), .lit (strL ")")]

/-- `formatOperand`'s postfix pattern
`^(op)\s*(\([^)]+(?:\([^)]*\))*[^)]*\))\s+(by|without)\s*(\([^)]+\))$`. -/
def postfixOperandRE (op : Str) : RE :=
  reSeqList [.grp 1 (.lit op), .star wsRE,
    .grp 2 (reSeqList [.lit (strL "("), plusRE nonParenRE,
      .star (reSeqList [.lit (strL "("), .star nonParenRE, .lit (strL ")")]),
      .star nonParenRE, .lit (strL ")")]),
    plusRE wsRE, .grp 3 byWithoutRE, .star wsRE,
    .grp 4 (reSeqList [.lit (strL "("), plusRE nonParenRE, .lit (strL ")")]), .eos]

/-- `formatOperand`'s prefix pattern `^(op)\s+(by|without)\s*(\([^)]+\))\s*(\(.+\))$`. -/
def prefixOperandRE (op : Str) : RE :=
  reSeqList [.grp 1 (.lit op), plusRE wsRE, .grp 2 byWithoutRE, .star wsRE,
    .grp 3 (reSeqList [.lit (strL "("), plusRE nonParenRE, .lit (strL ")")]),
    .star wsRE,
    .grp 4 (reSeqList [.lit (strL "("), plusRE dotRE, .lit (strL ")")]), .eos]

/-- `formatOperand`'s simple pattern `^(op)\s*(\(.+\))$`. -/
def simpleOperandRE (op : Str) : RE :=
  reSeqList [.grp 1 (.lit op), .star wsRE,
    .grp 2 (reSeqList [.lit (strL "("), plusRE dotRE, .lit (strL ")")]), .eos]

/-- `detectAggregationStyle`'s per-operator prefix pattern
`\bOP\s+(by|without)\s*\([^)]*\)\s*\(`. -/
def detectPrefixRE (op : Str) : RE :=
  reSeqList [.wordB, .lit op, plusRE wsRE, .grp 1 byWithoutRE, .star wsRE,
    .lit (strL "("), .star nonParenRE, .lit (strL ")"), .star wsRE, .lit (strL "(")]

/-- The aggregation operators of `detectAggregationStyle`, in source order. -/
def aggregationOps : List Str :=
  ["sum", "min", "max", "avg", "group", "stddev", "stdvar", "count",
   "count_values", "bottomk", "topk", "quantile"].map String.data

/-- `detectAggregationStyle`'s postfix pattern
`\b(sum|min|max|avg|group|stddev|stdvar|count|count_values|bottomk|topk|quantile)\s*\(.*\)\s*(by|without)\s*\(`. -/
def detectPostfixRE : RE :=
  reSeqList [.wordB, .grp 1 (reAltList (aggregationOps.map RE.lit)), .star wsRE,
    .lit (strL "("), .star dotRE, .lit (strL ")"), .star wsRE,
    .grp 2 byWithoutRE, .star wsRE, .lit (strL "(")]

/-- `CheckAndFormatPromQL`'s field pattern `(?m)^(\s*(?:expr|query):)\s*(.+)$`. -/
def exprFieldRE : RE :=
  reSeqList [.bol,
    .grp 1 (reSeqList [.star wsRE, reAltList [.lit (strL "expr"), .lit (strL "query")],
      .lit (strL ":")]),
    .star wsRE, .grp 2 (plusRE dotRE), .eol]

/-- `extractMetricNames`'s pattern `\b([a-zA-Z_:][a-zA-Z0-9_:]*)\s*(?:[{\[\s)]|$)`. -/
def metricNameRE : RE :=
  reSeqList [.wordB, .grp 1 (.seq (.cls isMetricFirst) (.star (.cls isMetricRest))),
    .star wsRE,
    reAltList [.cls (fun c => c = lbrace || c = '[' || isREspace c || c = ')'), .eos]]

/-- `checkInstrumentationPatterns`'s pattern
`\b(rate|irate)\s*\(\s*([a-zA-Z_:][a-zA-Z0-9_:]*)\s*[\[\{]`. -/
def rateRE : RE :=
  reSeqList [.wordB, .grp 1 (reAltList [.lit (strL "rate"), .lit (strL "irate")]),
    .star wsRE, .lit (strL "("), .star wsRE,
    .grp 2 (.seq (.cls isMetricFirst) (.star (.cls isMetricRest))), .star wsRE,
    .cls (fun c => c = '[' || c = lbrace)]

/-- `checkSyntheticMetrics`'s pattern `\bup(?:\s*(\{[^}]*\}))?(?:\s*\[|[\)\s,]|$)`. -/
def upRE : RE :=
  reSeqList [.wordB, .lit (strL "up"),
    optRE (.seq (.star wsRE)
      (.grp 1 (reSeqList [.lit [lbrace], .star (.cls (fun c => c != rbrace)),
        .lit [rbrace]]))),
    reAltList [.seq (.star wsRE) (.lit (strL "[")),
      .cls (fun c => c = ')' || isREspace c || c = ','), .eos]]

/-- `checkSyntheticMetrics`'s job pattern `job\s*=~?`. -/
def jobRE : RE :=
  reSeqList [.lit (strL "job"), .star wsRE, .lit (strL "="), optRE (.lit (strL "~"))]

/-- `checkLabelNaming`'s selector pattern `\{([^}]+)\}`. -/
def labelSelRE : RE :=
  reSeqList [.lit [lbrace], .grp 1 (plusRE (.cls (fun c => c != rbrace))), .lit [rbrace]]

/-- `checkLabelNaming`'s pattern `^([a-zA-Z_][a-zA-Z0-9_]*)(?:\s*[!=]~?\s*.+)?$`. -/
def labelNameRE : RE :=
  reSeqList [.grp 1 (.seq (.cls isLabelFirst) (.star (.cls isLabelRest))),
    optRE (reSeqList [.star wsRE, .cls (fun c => c = '!' || c = '='),
      optRE (.lit (strL "~")), .star wsRE, plusRE dotRE]),
    .eos]

/-- `checkAlertHysteresisWithDuration`'s pattern `\[(\d+[smhdwy])\]`. -/
def durationRE : RE :=
  reSeqList [.lit (strL "["),
    .grp 1 (.seq (plusRE (.cls Char.isDigit))
      (.cls (fun c => c = 's' || c = 'm' || c = 'h' || c = 'd' || c = 'w' || c = 'y'))),
    .lit (strL "]")]

/-- The anchored check `^[a-zA-Z_:][a-zA-Z0-9_:]*$`, written out directly. -/
def isValidMetricNameChars (s : Str) : Bool :=
  match s with
  | [] => false
  | c :: t => isMetricFirst c && t.all isMetricRest

/-- The anchored check `^[a-zA-Z_][a-zA-Z0-9_]*$`, written out directly. -/
def isValidLabelNameChars (s : Str) : Bool :=
  match s with
  | [] => false
  | c :: t => isLabelFirst c && t.all isLabelRest

/-- The anchored check `^[a-z0-9_]+$`, written out directly. -/
def isValidOperationsChars (s : Str) : Bool :=
  !s.isEmpty && s.all (fun c => ('a' ≤ c && c ≤ 'z') || c.isDigit || c = '_')

/-- `MatchString` of `[a-z][A-Z]`: some lower-case ASCII letter immediately
followed by an upper-case one. -/
def hasCamelTransition : Str → Bool
  | a :: b :: t =>
    ('a' ≤ a && a ≤ 'z' && 'A' ≤ b && b ≤ 'Z') || hasCamelTransition (b :: t)
  | _ => false

/-! ### The aggregation style model and the structural analyzers -/

/-- `AggregationStyle` with the three source constants (the zero value is
`AggregationStyleUnknown`). -/
inductive AggregationStyle where
  | AggregationStyleUnknown
  | AggregationStylePostfix
  | AggregationStylePrefix
deriving DecidableEq, Repr

open AggregationStyle

/-- `detectAggregationStyle`: prefix style is tested first for each
aggregation operator (it is the more specific shape), then the single
postfix pattern; otherwise the style is unknown. -/
def detectAggregationStyle (expr : Str) : AggregationStyle :=
  if aggregationOps.any (fun op => reMatches expr (detectPrefixRE op)) then
    AggregationStylePrefix
  else if reMatches expr detectPostfixRE then AggregationStylePostfix
  else AggregationStyleUnknown

/-- The keyword list of `shouldBeMultiline`, space padded, in source order. -/
def multilineOperators : List Str :=
  [" and ", " or ", " unless ", " by ", " without ", " on ", " ignoring "].map String.data

/-- `shouldBeMultiline`: over 80 characters (unless the length heuristic is
disabled), or at least two space-padded keyword instances in the lowered
expression. -/
def shouldBeMultiline (expr : Str) (disableLineLength : Bool) : Bool :=
  if !disableLineLength && expr.length > 80 then true
  else
    decide ((multilineOperators.map (fun op => strCount (toLowerStr expr) op)).sum ≥ 2)

/-- The binary operator list shared by `formatPromQLMultiline`,
`checkRedundantAggregations` and `checkAggregationPlacement`. -/
def binaryOps : List Str :=
  [" / ", " * ", " + ", " - ", " % ", " ^ "].map String.data

/-- The zero value of Go's `rune` (the loop's initial `quoteChar`). -/
def nulChar : Char := Char.ofNat 0

/-- The quote-toggle test of `splitByBinaryOperator`: an unescaped double or
single quote (`i == 0 || expr[i-1] != '\\'`; `prev = none` models `i == 0`). -/
def quoteTrigger (prev : Option Char) (c : Char) : Bool :=
  (c = '"' || c = '\x27') && prev ≠ some '\\'

/-- The depth contribution of one character: `+1` for `(`, `-1` for `)`. -/
def parenDelta (c : Char) : Int :=
  (if c = '(' then 1 else 0) - (if c = ')' then 1 else 0)

/-- One transition of the scanner's state `(depth, inQuote, quoteChar)`,
exactly as the Go loop updates its three variables on one character: a quote
toggle enters, leaves or keeps the quote state (depth untouched); inside
quotes everything is inert; otherwise the parenthesis depth is adjusted. -/
def sbboStep1 (prev : Option Char) (st : Int × Bool × Char) (c : Char) :
    Int × Bool × Char :=
  if quoteTrigger prev c then
    if !st.2.1 then (st.1, true, c)
    else if c = st.2.2 then (st.1, false, st.2.2)
    else st
  else if st.2.1 then st
  else (st.1 + parenDelta c, st.2.1, st.2.2)

/-- The scanning loop of `splitByBinaryOperator`: walk the remaining
characters carrying the index `i`, the previous character (for the escape
test) and the state `(depth, inQuote, quoteChar)`. The Go loop `continue`s
past quote toggles and quoted characters and otherwise updates the depth and
tests for a split, which is exactly: split here when the character is no
quote toggle, the scanner is outside quotes, the updated depth is zero and
`op` starts here; otherwise advance with the state transition. -/
def sbboLoop (op : Str) : Str → Nat → Option Char → Int × Bool × Char → Option Nat
  | [], _, _, _ => none
  | c :: rest, i, prev, st =>
    if !quoteTrigger prev c && !st.2.1 && decide (st.1 + parenDelta c = 0) &&
        op.isPrefixOf (c :: rest) then some i
    else sbboLoop op rest (i + 1) (some c) (sbboStep1 prev st c)

/-- `splitByBinaryOperator(expr, op)`: split at the first instance of `op`
that lies at parenthesis depth 0 and outside quotes; one-element result when
there is none. -/
def splitByBinaryOperator (expr op : Str) : List Str :=
  match sbboLoop op expr 0 none (0, false, nulChar) with
  | some i => [expr.take i, expr.drop (i + op.length)]
  | none => [expr]

/-- The scanner state after a character sequence, threading the previous
character for the escape test. -/
def sbboStateFold : Str → Option Char → (Int × Bool × Char) → Int × Bool × Char
  | [], _, st => st
  | c :: t, prev, st => sbboStateFold t (some c) (sbboStep1 prev st c)

/-- The declarative split condition at index `i` of `expr`: the character
there is not a quote toggle, the scan state accumulated over `expr[0:i]` is
outside quotes, the parenthesis depth including the character at `i` is
zero, and `op` starts at `i`. -/
def sbboEligible (expr op : Str) (i : Nat) : Bool :=
  match (expr.drop i).head? with
  | none => false
  | some c =>
    let st := sbboStateFold (expr.take i) none (0, false, nulChar)
    !quoteTrigger (expr.take i).getLast? c && !st.2.1 &&
      decide (st.1 + parenDelta c = 0) && op.isPrefixOf (expr.drop i)

/-- `extractTrailingAggregation`: the leftmost (hence, because of the `$`
anchor, the trailing) match of `trailingAggRE`, trimmed; `""` when there is
none. -/
def extractTrailingAggregation (expr : Str) : Str :=
  match reFind expr trailingAggRE with
  | some (st, en, _) => trimSpace ((expr.take en).drop st)
  | none => []

/-- The `TrimSpace`-then-strip-outer-parentheses-then-`TrimSpace` snippet
that `formatOperand` repeats for each matched inner expression. -/
def stripOuterParens (inner : Str) : Str :=
  let inner := trimSpace inner
  if (strL "(").isPrefixOf inner && (strL ")").isSuffixOf inner then
    trimSpace ((inner.drop 1).dropLast)
  else inner

/-- The aggregation operators `formatOperand` recognizes, in source order
(note: unlike `aggregationOps` the list has no `group`). -/
def formatOperandAggOps : List Str :=
  ["sum", "avg", "min", "max", "count", "stddev", "stdvar", "topk", "bottomk",
   "quantile", "count_values"].map String.data

/-- One `aggOp` iteration of `formatOperand`'s loop: try the postfix, prefix
and simple call shapes in that order; `none` when none of the three match. -/
def tryFormatAgg (expr : Str) (baseIndent : Nat) (omitAggregation : Bool)
    (aggOp : Str) : Option Str :=
  let indent : Str := List.replicate (baseIndent + 2) ' '
  let closeIndent : Str := List.replicate baseIndent ' '
  match reMatchAt expr (postfixOperandRE aggOp) 0 with
  | some (_, caps) =>
    let aggFunc := capStr expr caps 1
    let innerExpr := stripOuterParens (capStr expr caps 2)
    let byOrWithout := capStr expr caps 3
    let labels := capStr expr caps 4
    let formattedInner := indent ++ innerExpr
    if omitAggregation then
      some (aggFunc ++ strL " (\n" ++ formattedInner ++ strL "\n" ++ closeIndent ++ strL ")")
    else
      some (aggFunc ++ strL " " ++ byOrWithout ++ strL " " ++ labels ++ strL " (\n" ++
        formattedInner ++ strL "\n" ++ closeIndent ++ strL ")")
  | none =>
    match reMatchAt expr (prefixOperandRE aggOp) 0 with
    | some (_, caps) =>
      let aggFunc := capStr expr caps 1
      let byOrWithout := capStr expr caps 2
      let labels := capStr expr caps 3
      let innerExpr := stripOuterParens (capStr expr caps 4)
      let formattedInner := indent ++ innerExpr
      if omitAggregation then
        some (aggFunc ++ strL " (\n" ++ formattedInner ++ strL "\n" ++ closeIndent ++ strL ")")
      else
        some (aggFunc ++ strL " " ++ byOrWithout ++ strL " " ++ labels ++ strL " (\n" ++
          formattedInner ++ strL "\n" ++ closeIndent ++ strL ")")
    | none =>
      match reMatchAt expr (simpleOperandRE aggOp) 0 with
      | some (_, caps) =>
        let aggFunc := capStr expr caps 1
        let innerExpr := stripOuterParens (capStr expr caps 2)
        let formattedInner := indent ++ innerExpr
        some (aggFunc ++ strL " (\n" ++ formattedInner ++ strL "\n" ++ closeIndent ++ strL ")")
      | none => none

/-- `formatOperand(expr, baseIndent, omitAggregation)`: trim, try the three
call shapes for each aggregation operator, and fall back to the trimmed
operand unchanged. -/
def formatOperand (expr : Str) (baseIndent : Nat) (omitAggregation : Bool) : Str :=
  let expr := trimSpace expr
  match formatOperandAggOps.findSome? (tryFormatAgg expr baseIndent omitAggregation) with
  | some s => s
  | none => expr

/-- The omission flag of `formatPromQLMultiline` (line 250 of the source):
both trailing clauses equal, non-empty, and not a `without` clause. -/
def omitLeftAggFlag (leftAgg rightAgg : Str) : Bool :=
  !leftAgg.isEmpty && leftAgg == rightAgg && !strContains leftAgg (strL "without")

/-- The `on()` label extraction of `formatPromQLMultiline`: labels of the
right operand's `by` clause, comma-split and trimmed. -/
def extractByLabels (rightAgg : Str) : List Str :=
  if !rightAgg.isEmpty && strContains rightAgg (strL "by") then
    match reFind rightAgg byLabelsRE with
    | some (_, _, caps) =>
      let labelStr := trimSpace (capStr rightAgg caps 1)
      (strSplit labelStr (strL ",")).map trimSpace
    | none => []
  else []

/-- `formatPromQLMultiline(expr)`: split at the first binary operator that
succeeds, decide clause omission and the `on()` hint, and format the two
operands; a single operand is formatted alone. -/
def formatPromQLMultiline (expr : Str) : Str :=
  match binaryOps.findSome? (fun op =>
    if strContains expr op then
      let parts := splitByBinaryOperator expr op
      if parts.length = 2 then
        let leftStr := trimSpace (parts.getD 0 [])
        let rightStr := trimSpace (parts.getD 1 [])
        let leftAgg := extractTrailingAggregation leftStr
        let rightAgg := extractTrailingAggregation rightStr
        let omitLeftAggregation := omitLeftAggFlag leftAgg rightAgg
        let matchingLabels := extractByLabels rightAgg
        let left := formatOperand leftStr 0 omitLeftAggregation
        let right := formatOperand rightStr 0 false
        let opLine0 := trimSpace op
        let opLine :=
          if !matchingLabels.isEmpty then
            opLine0 ++ strL " on (" ++ strJoin matchingLabels (strL ", ") ++ strL ")"
          else opLine0
        some (left ++ strL "\n  " ++ opLine ++ strL "\n" ++ right)
      else none
    else none) with
  | some s => s
  | none => formatOperand expr 0 false

/-- `checkRedundantAggregations(expr)`: for each binary operator contained in
the expression, split textually (`strings.Split`), and flag the left trailing
clause when both sides carry the same non-empty trailing clause. -/
def checkRedundantAggregations (expr : Str) : List Str :=
  binaryOps.flatMap (fun op =>
    if !strContains expr op then []
    else
      let parts := strSplit expr op
      if parts.length ≠ 2 then []
      else
        let left := trimSpace (parts.getD 0 [])
        let right := trimSpace (parts.getD 1 [])
        let leftAggClause := extractTrailingAggregation left
        if leftAggClause.isEmpty then []
        else
          let rightAggClause := extractTrailingAggregation right
          if rightAggClause.isEmpty then []
          else if leftAggClause = rightAggClause then
            [strL "Redundant aggregation clause '" ++ leftAggClause ++
              strL "' on left side of '" ++ op ++
              strL "' - only specify on the final operand"]
          else [])

/-- The comparison operator list of `checkAggregationPlacement`. -/
def comparisonOps : List Str :=
  [" > ", " < ", " >= ", " <= ", " == ", " != "].map String.data

/-- The next-operand truncation of `checkAggregationPlacement`: when the
expression has a comparison operator, cut the following operand at the first
comparison operator it contains. -/
def truncAtComparison (hasComparison : Bool) (nextPart : Str) : Str :=
  if hasComparison then
    match comparisonOps.find? (fun compOp => strContains nextPart compOp) with
    | some compOp => trimSpace ((strSplit nextPart compOp).getD 0 [])
    | none => nextPart
  else nextPart

/-- The indexed loop of `checkAggregationPlacement` over the split parts: the
first non-final part with a trailing clause whose following part (truncated
at a comparison) carries no clause or the same clause yields one issue, and
the loop breaks. -/
def placementLoop (hasComparison : Bool) : List Str → List Str
  | p0 :: p1 :: rest =>
    let part := trimSpace p0
    let aggClause := extractTrailingAggregation part
    if !aggClause.isEmpty then
      let nextPart := truncAtComparison hasComparison (trimSpace p1)
      let nextAggClause := extractTrailingAggregation nextPart
      if nextAggClause.isEmpty || nextAggClause = aggClause then
        [strL "Aggregation clause '" ++ aggClause ++
          strL "' should only appear on the final operand, not intermediate operands"]
      else placementLoop hasComparison (p1 :: rest)
    else placementLoop hasComparison (p1 :: rest)
  | _ => []

/-- `checkAggregationPlacement(expr)`. -/
def checkAggregationPlacement (expr : Str) : List Str :=
  binaryOps.flatMap (fun op =>
    if !strContains expr op then []
    else
      let hasComparison := comparisonOps.any (fun compOp => strContains expr compOp)
      let parts := strSplit expr op
      if parts.length < 2 then []
      else placementLoop hasComparison parts)

/-! ### The best-practice validator bank -/

/-- The PromQL keyword and function list of `isPromQLKeyword`, in source order. -/
def promQLKeywords : List Str :=
  ["sum", "min", "max", "avg", "group", "stddev", "stdvar", "count", "count_values",
   "bottomk", "topk", "quantile",
   "and", "or", "unless",
   "by", "without", "on", "ignoring", "group_left", "group_right",
   "rate", "irate", "increase", "delta", "idelta", "deriv", "predict_linear",
   "histogram_quantile", "label_replace", "label_join", "ln", "log2", "log10",
   "abs", "ceil", "floor", "round", "exp", "sqrt", "time", "vector", "scalar",
   "sort", "sort_desc", "timestamp", "absent", "absent_over_time",
   "changes", "clamp_max", "clamp_min", "day_of_month", "day_of_week",
   "days_in_month", "hour", "minute", "month", "year", "resets",
   "avg_over_time", "min_over_time", "max_over_time", "sum_over_time",
   "count_over_time", "quantile_over_time", "stddev_over_time", "stdvar_over_time",
   "last_over_time", "present_over_time"].map String.data

/-- `isPromQLKeyword(s)`: the lowered name is one of the keywords. -/
def isPromQLKeyword (s : Str) : Bool :=
  promQLKeywords.any (fun kw => toLowerStr s = kw)

/-- First-occurrence deduplication. The Go code collects names into a
`map[string]bool` and then iterates the map, whose order Go leaves
unspecified; the embedding fixes the insertion (first-occurrence) order. -/
def dedupFirst (l : List Str) : List Str :=
  l.foldl (fun acc x => if x ∈ acc then acc else acc ++ [x]) []

/-- `extractMetricNames(expr)`: capture group 1 of every `metricNameRE`
match, keywords filtered out, deduplicated. -/
def extractMetricNames (expr : Str) : List Str :=
  dedupFirst (((reFindAll expr metricNameRE).map (fun m => capStr expr m.2.2 1)).filter
    (fun n => !isPromQLKeyword n))

/-- The allow-list of `checkMetricNamingConventions`. -/
def standardMetrics : List Str :=
  ["up", "scrape_duration_seconds", "scrape_samples_scraped",
   "scrape_samples_post_metric_relabeling", "scrape_series_added"].map String.data

/-- `checkMetricNamingConventions(metricName)`. -/
def checkMetricNamingConventions (metricName : Str) : List Str :=
  if standardMetrics.any (fun std => metricName = std) then []
  else
    (if !isValidMetricNameChars metricName then
      [strL "Metric '" ++ metricName ++
        strL "' contains invalid characters (must match [a-zA-Z_:][a-zA-Z0-9_:]*)"]
     else []) ++
    (if hasCamelTransition metricName then
      [strL "Metric '" ++ metricName ++ strL "' should use snake_case, not camelCase"]
     else []) ++
    (if !strContains metricName (strL "_") && !strContains metricName (strL ":") then
      [strL "Metric '" ++ metricName ++
        strL "' should have an application prefix (e.g., 'myapp_" ++ metricName ++ strL "')"]
     else [])

/-- The counter-suggesting fragments of `isCounterPattern`. -/
def counterKeywords : List Str :=
  ["_count", "_requests", "_errors", "_failures", "_success",
   "_processed", "_received", "_sent", "_created", "_deleted"].map String.data

/-- `isCounterPattern(metricName)`. -/
def isCounterPattern (metricName : Str) : Bool :=
  if (strL "_total").isSuffixOf metricName then false
  else counterKeywords.any (fun kw => strContains metricName kw)

/-- The non-base-unit suffix table of `checkMetricSuffixes`. Go stores it in
a map and iterates in unspecified order; no key is a suffix of another key,
so at most one entry can fire and the order is immaterial — the embedding
lists the entries in source-literal order. -/
def nonBaseUnits : List (Str × Str) :=
  [("_milliseconds", "_seconds"), ("_microseconds", "_seconds"),
   ("_nanoseconds", "_seconds"), ("_minutes", "_seconds"), ("_hours", "_seconds"),
   ("_days", "_seconds"), ("_kilobytes", "_bytes"), ("_megabytes", "_bytes"),
   ("_gigabytes", "_bytes"), ("_terabytes", "_bytes"), ("_millis", "_seconds"),
   ("_micros", "_seconds"), ("_nanos", "_seconds"), ("_kb", "_bytes"),
   ("_mb", "_bytes"), ("_gb", "_bytes"), ("_tb", "_bytes"), ("_ms", "_seconds"),
   ("_us", "_seconds"), ("_ns", "_seconds")].map
    (fun p => (String.data p.1, String.data p.2))

/-- `checkMetricSuffixes(metricName)`. -/
def checkMetricSuffixes (metricName : Str) : List Str :=
  (if isCounterPattern metricName && !(strL "_total").isSuffixOf metricName then
    [strL "Counter metric '" ++ metricName ++ strL "' should have '_total' suffix"]
   else []) ++
  nonBaseUnits.flatMap (fun p =>
    if p.1.isSuffixOf metricName then
      [strL "Metric '" ++ metricName ++ strL "' should use base unit '" ++ p.2 ++
        strL "' instead of '" ++ p.1 ++ strL "'"]
    else []) ++
  (if strContains metricName (strL "_percent") ||
      strContains metricName (strL "_percentage") then
    [strL "Metric '" ++ metricName ++
      strL "' should use '_ratio' suffix with values 0-1 instead of percentage"]
   else [])

/-- `checkRecordingRuleNaming(metricName)`: the `level:metric:operations`
convention checks, in source order. -/
def checkRecordingRuleNaming (metricName : Str) : List Str :=
  if !strContains metricName (strL ":") then []
  else
    let parts := strSplit metricName (strL ":")
    if parts.length < 2 then
      [strL "Recording rule '" ++ metricName ++
        strL "' should follow format 'level:metric:operations' (e.g., 'job:http_requests_total:rate5m')"]
    else
      let level := parts.getD 0 []
      let metric := parts.getD 1 []
      (if level.isEmpty then
        [strL "Recording rule '" ++ metricName ++
          strL "' has empty level component. Level should represent aggregation labels (e.g., 'job', 'instance')"]
       else []) ++
      (if metric.isEmpty then
        [strL "Recording rule '" ++ metricName ++ strL "' has empty metric component"]
       else []) ++
      (if hasUpperAZ metric then
        [strL "Recording rule '" ++ metricName ++
          strL "' metric component should use snake_case, not camelCase"]
       else []) ++
      (if parts.length ≥ 3 then
        let operations := parts.getD 2 []
        (if operations.isEmpty then
          [strL "Recording rule '" ++ metricName ++
            strL "' has empty operations component. Operations should describe transformations (e.g., 'rate5m', 'sum')"]
         else []) ++
        (if !isValidOperationsChars operations then
          [strL "Recording rule '" ++ metricName ++
            strL "' operations component should only contain lowercase letters, digits, and underscores"]
         else []) ++
        (if operations = strL "value" then
          [strL "Recording rule '" ++ metricName ++
            strL "' should not use 'value' as operations component (discouraged for being ambiguous and redundant)"]
         else []) ++
        (if operations = strL "avg" then
          [strL "Recording rule '" ++ metricName ++
            strL "' should not use 'avg' alone (discouraged for being ambiguous - specify time window, e.g., 'avg5m')"]
         else [])
       else []) ++
      (if strContains metric (strL "_total") && parts.length ≥ 3 then
        let operations := parts.getD 2 []
        if strContains operations (strL "rate") || strContains operations (strL "irate") then
          [strL "Recording rule '" ++ metricName ++
            strL "' should strip '_total' suffix from counter metrics when using rate() or irate() (expected: '" ++
            level ++ strL ":" ++ trimSuffix metric (strL "_total") ++ strL ":" ++
            parts.getD 2 [] ++ strL "')"]
        else []
       else [])

/-- The metric-type suffixes of `checkVariableNaming`. -/
def metricTypes : List Str :=
  ["_gauge", "_counter", "_summary", "_histogram"].map String.data

/-- `checkVariableNaming(expr)`: additional per-name rules; an invalid
character set skips the remaining checks for that name (Go `continue`). -/
def checkVariableNaming (expr : Str) : List Str :=
  (extractMetricNames expr).flatMap (fun metricName =>
    if !isValidMetricNameChars metricName then
      [strL "Metric name '" ++ metricName ++
        strL "' should only contain alphanumeric characters, underscores, and colons, and must not start with a digit"]
    else
      (if strContains metricName (strL ":") then
        if (strSplit metricName (strL ":")).length < 2 then
          [strL "Metric name '" ++ metricName ++
            strL "' should not contain colons unless it's a recording rule (format: level:metric:operations)"]
        else []
       else []) ++
      (if hasUpperAZ metricName then
        [strL "Metric name '" ++ metricName ++
          strL "' should use lowercase with underscores (snake_case), not camelCase or PascalCase"]
       else []) ++
      metricTypes.flatMap (fun metricType =>
        if metricType.isSuffixOf metricName then
          [strL "Metric name '" ++ metricName ++
            strL "' should not include the metric type (" ++ metricType ++
            strL ") in the name"]
        else []))

/-- The generic-name denylist of `checkLabelNaming`. -/
def genericLabels : List Str := ["type"].map String.data

/-- The label name of one matcher pair, per `labelNameRE` (`nil` submatch
means the pair is skipped). -/
def labelNameOf (pair : Str) : Option Str :=
  match reMatchAt pair labelNameRE 0 with
  | some (_, caps) => some (capStr pair caps 1)
  | none => none

/-- The per-label checks of `checkLabelNaming`: an invalid character set
skips the remaining checks (Go `continue`); otherwise the underscore checks
and the generic-name check run. -/
def labelIssuesFor (labelName : Str) : List Str :=
  if !isValidLabelNameChars labelName then
    [strL "Label name '" ++ labelName ++
      strL "' should only contain alphanumeric characters and underscores, and must not start with a digit"]
  else
    (if (strL "__").isPrefixOf labelName then
      [strL "Label name '" ++ labelName ++
        strL "' uses double leading underscores which are reserved for internal Prometheus use"]
     else if (strL "_").isPrefixOf labelName then
      [strL "Label name '" ++ labelName ++
        strL "' should not start with an underscore (reserved for internal use)"]
     else []) ++
    genericLabels.flatMap (fun generic =>
      if labelName = generic then
        [strL "Label name '" ++ labelName ++
          strL "' is too generic and should be avoided. Consider using a more specific name"]
      else [])

/-- One label pair of `checkLabelNaming`'s inner loop; the first component
of the accumulator is the `seenLabels` set, the second the issues. -/
def labelPairStep (acc : List Str × List Str) (pair0 : Str) : List Str × List Str :=
  let pair := trimSpace pair0
  match labelNameOf pair with
  | none => acc
  | some labelName =>
    if labelName ∈ acc.1 then acc
    else (acc.1 ++ [labelName], acc.2 ++ labelIssuesFor labelName)

/-- One selector match of `checkLabelNaming`'s outer loop. -/
def labelSelStep (expr : Str) (acc : List Str × List Str) (m : Nat × Nat × Caps) :
    List Str × List Str :=
  let labelSelector := capStr expr m.2.2 1
  (strSplit labelSelector (strL ",")).foldl labelPairStep acc

/-- `checkLabelNaming(expr)`. -/
def checkLabelNaming (expr : Str) : List Str :=
  ((reFindAll expr labelSelRE).foldl (labelSelStep expr) ([], [])).2

/-- The division guard message of `checkInstrumentationPatterns`. -/
def divisionIssueMsg : Str :=
  strL "Division detected without zero-protection - consider adding '... or 1' or checking for non-zero denominator"

/-- `checkInstrumentationPatterns(expr)`: the rate-on-gauge heuristic and the
division-guard heuristic. -/
def checkInstrumentationPatterns (expr : Str) : List Str :=
  ((reFindAll expr rateRE).flatMap (fun m =>
    let fn := capStr expr m.2.2 1
    let metricName := capStr expr m.2.2 2
    if !(strL "_total").isSuffixOf metricName &&
       !(strL "_seconds_total").isSuffixOf metricName &&
       !(strL "_count").isSuffixOf metricName &&
       !strContains metricName (strL "_seconds") then
      [strL "Using " ++ fn ++ strL "() on '" ++ metricName ++
        strL "' which may not be a counter - rate() should only be used with counters"]
    else [])) ++
  (if strContains expr (strL " / ") && !strContains expr (strL " or ") then
    if !strContains expr (strL "!= 0") then [divisionIssueMsg] else []
   else [])

/-- `checkUtilizationDivisor(expr)`. -/
def checkUtilizationDivisor (expr : Str) : List Str :=
  if !strContains expr (strL " / ") then []
  else
    let metricNames := extractMetricNames expr
    let hasUtilization :=
      metricNames.any (fun n => strContains (toLowerStr n) (strL "utilization"))
    if !hasUtilization then []
    else
      let parts := splitByBinaryOperator expr (strL " / ")
      if parts.length ≠ 2 then []
      else
        let denominator := trimSpace (parts.getD 1 [])
        let denominatorMetrics := extractMetricNames denominator
        let hasTotal := denominatorMetrics.any (fun m =>
          strContains (toLowerStr m) (strL "_total") ||
          (strL "total").isSuffixOf (toLowerStr m))
        if !hasTotal then
          [strL "Utilization metric detected but denominator does not contain a 'total' metric - utilization should be calculated as (used / total), where the denominator metric name contains '_total' or 'total'"]
        else []

/-- `checkSyntheticMetrics(expr)`: each `up` instance must carry a selector
with a `job` matcher. -/
def checkSyntheticMetrics (expr : Str) : List Str :=
  (reFindAll expr upRE).flatMap (fun m =>
    let labelSelector := capStr expr m.2.2 1
    let hasJobLabel := !labelSelector.isEmpty && reMatches labelSelector jobRE
    if !hasJobLabel then
      [strL "Synthetic metric 'up' should always include a job label selector (e.g., up\x7bjob=\"...\"\x7d) to avoid matching multiple jobs"]
    else [])

/-- `checkPrometheusBestPractices(expr)`: the validator bank, in source order. -/
def checkPrometheusBestPractices (expr : Str) : List Str :=
  ((extractMetricNames expr).flatMap (fun metricName =>
    checkMetricNamingConventions metricName ++ checkMetricSuffixes metricName ++
    checkRecordingRuleNaming metricName)) ++
  checkVariableNaming expr ++ checkLabelNaming expr ++
  checkInstrumentationPatterns expr ++ checkUtilizationDivisor expr ++
  checkSyntheticMetrics expr

/-! ### The YAML rule model, the external world, and the two collaborator
checks that consume it -/

/-- `PromQLRule` (the YAML-decoded fields the checks read; the `labels` and
`annotations` maps are never read by the analysed code and are omitted). -/
structure PromQLRule where
  alert : Str
  record : Str
  expr : Str
  forDuration : Str
deriving DecidableEq

/-- `PrometheusRuleGroup`. -/
structure PrometheusRuleGroup where
  name : Str
  interval : Str
  rules : List PromQLRule
deriving DecidableEq

/-- `PrometheusRules`. -/
structure PrometheusRules where
  groups : List PrometheusRuleGroup
deriving DecidableEq

/-- The external collaborators of the core, as one explicit world value:
`yamlParse` models `yaml.Unmarshal` into `PrometheusRules` (`none` = parse
error), and `queryRange` models one `/api/v1/query_range` round trip of
`checkMetricContinuity` — the HTTP call, the clock that picks the window and
the JSON decoding — returning either an error or, per series, the list of
sample timestamps (seconds). -/
structure WorldEnv where
  yamlParse : Str → Option PrometheusRules
  queryRange : Str → Except Str (List (List Int))

/-- `CheckOptions`. -/
structure CheckOptions where
  disableLineLength : Bool
  prometheusURL : Str
  verbose : Bool

/-- `%v` of a Go string slice: the entries space-separated inside brackets. -/
def fmtStrSlice (l : List Str) : Str := strL "[" ++ strJoin l (strL " ") ++ strL "]"

/-- `checkAlertHysteresisWithDuration(content)`: alert rules that carry both
a `for:` clause and a `[duration]` selector inside the expression. -/
def checkAlertHysteresisWithDuration (env : WorldEnv) (content : Str) : List Str :=
  match env.yamlParse content with
  | none => []
  | some rules =>
    rules.groups.flatMap (fun g => g.rules.flatMap (fun rule =>
      if rule.alert.isEmpty then []
      else if !rule.forDuration.isEmpty then
        let durMatches := reFindAll rule.expr durationRE
        if !durMatches.isEmpty then
          let durations := durMatches.map (fun m => capStr rule.expr m.2.2 1)
          [strL "Alert '" ++ rule.alert ++ strL "' has both a 'for: " ++
            rule.forDuration ++
            strL "' clause (hysteresis) and duration(s) " ++ fmtStrSlice durations ++
            strL " in the expression - consider removing the duration as the sliding window may interact poorly with hysteresis"]
        else []
      else []))

/-- `checkMetricContinuity(prometheusURL, metricName)`: query the last hour
at one-minute resolution (folded into `env.queryRange`) and report sparse
data when some series has a gap of more than 120 seconds between successive
timestamps; no returned series is an error. The defensive branches for
malformed JSON values are not representable in the typed response model. -/
def checkMetricContinuity (env : WorldEnv) (metricName : Str) : Except Str Bool :=
  match env.queryRange metricName with
  | .error e => .error e
  | .ok results =>
    if results.length = 0 then .error (strL "no data found for metric")
    else
      .ok (results.any (fun values =>
        if values.length < 2 then false
        else ((values.zip values.tail).countP (fun p => p.2 - p.1 > 120)) > 0))

/-- `checkTimeseriesContinuity(content, prometheusURL, verbose)`: collect the
metric names of every rule expression and flag the sparse ones (query errors
are skipped; the `verbose` progress printing produces no issues and is not
modelled). -/
def checkTimeseriesContinuity (env : WorldEnv) (content : Str) : List Str :=
  match env.yamlParse content with
  | none => []
  | some rules =>
    let metricNames := dedupFirst (rules.groups.flatMap (fun g =>
      g.rules.flatMap (fun rule => extractMetricNames rule.expr)))
    if metricNames.isEmpty then []
    else
      metricNames.flatMap (fun metricName =>
        match checkMetricContinuity env metricName with
        | .error _ => []
        | .ok true =>
          [strL "Metric '" ++ metricName ++
            strL "' has sparse data (gaps > 2 minutes detected) - timeseries databases don't handle sparse values well for alerting rules"]
        | .ok false => [])

/-! ### The entry point `CheckAndFormatPromQL` -/

/-- One `exprRegex` match of the document: the whole matched text, group 1
(the indented `expr:`/`query:` key) and group 2 (the raw value). -/
structure ExprMatch where
  fullMatch : Str
  keyPfx : Str
  rawValue : Str
deriving DecidableEq

/-- The matches of `exprRegex` over the document. -/
def findExprMatches (content : Str) : List ExprMatch :=
  (reFindAll content exprFieldRE).map (fun m =>
    { fullMatch := (content.take m.2.1).drop m.1,
      keyPfx := capStr content m.2.2 1,
      rawValue := capStr content m.2.2 2 })

/-- The per-match quote stripping of both passes: surrounding double or
single quotes are trimmed (as a cutset) from the trimmed value. -/
def trimQuotes (expression : Str) : Str :=
  if (strL "\"").isPrefixOf expression && (strL "\"").isSuffixOf expression then
    trimChar expression '"'
  else if (strL "'").isPrefixOf expression && (strL "'").isSuffixOf expression then
    trimChar expression '\x27'
  else expression

/-- The expression a match contributes to both passes. -/
def exprOf (m : ExprMatch) : Str := trimQuotes (trimSpace m.rawValue)

/-- The first pass: tally the detected styles over all matches
(postfix count, prefix count). -/
def styleCounts (ms : List ExprMatch) : Nat × Nat :=
  ms.foldl (fun acc m =>
    match detectAggregationStyle (exprOf m) with
    | AggregationStylePostfix => (acc.1 + 1, acc.2)
    | AggregationStylePrefix => (acc.1, acc.2 + 1)
    | AggregationStyleUnknown => acc) (0, 0)

/-- The dominant-style switch of `CheckAndFormatPromQL` (lines 105-113): the
larger counter wins, a non-zero tie prefers postfix, and with both counters
zero the style stays the zero value `AggregationStyleUnknown`. -/
def determineDominantStyle (postfixCount prefixCount : Nat) : AggregationStyle :=
  if postfixCount > prefixCount then AggregationStylePostfix
  else if prefixCount > postfixCount then AggregationStylePrefix
  else if postfixCount > 0 then AggregationStylePostfix
  else AggregationStyleUnknown

/-- The `styleName` map of the consistency issue (a missing key yields `""`). -/
def styleName : AggregationStyle → Str
  | AggregationStylePostfix => strL "postfix (e.g., 'sum(metric) by (label)')"
  | AggregationStylePrefix => strL "prefix (e.g., 'sum by (label) (metric)')"
  | AggregationStyleUnknown => []

/-- `getIndentation(line)`: the prefix before the first character that is
neither a space nor a tab; `""` when the line has no such character. -/
def getIndentation (line : Str) : Str :=
  match line.findIdx? (fun c => !(c = ' ' || c = '\t')) with
  | some i => line.take i
  | none => []

/-- `formatYAMLBlock(prefix, expr, indentation)`. -/
def formatYAMLBlock (keyPfx expr indentation : Str) : Str :=
  if !strContains expr (strL "\n") then keyPfx ++ strL " " ++ expr
  else
    let lines := strSplit expr (strL "\n")
    let result := keyPfx ++ strL " |\n" ++
      lines.flatMap (fun line =>
        if !(trimSpace line).isEmpty then
          indentation ++ strL "  " ++ trimSpace line ++ strL "\n"
        else [])
    result.rdropWhile (· = '\n')

/-- The issue list one match contributes in the second pass, in source
order: redundancy, placement, the multiline note, the best-practice bank,
and the style-consistency issue. -/
def matchChunk (dominantStyle : AggregationStyle) (disableLineLength : Bool)
    (m : ExprMatch) : List Str :=
  let expression := exprOf m
  checkRedundantAggregations expression ++ checkAggregationPlacement expression ++
  (if shouldBeMultiline expression disableLineLength then
    [strL "Expression should use multiline formatting: " ++ expression.take 60 ++ strL "..."]
   else []) ++
  checkPrometheusBestPractices expression ++
  (if dominantStyle ≠ AggregationStyleUnknown then
    let style := detectAggregationStyle expression
    if style ≠ AggregationStyleUnknown ∧ style ≠ dominantStyle then
      [strL "Inconsistent aggregation clause positioning: expression uses " ++
        styleName style ++ strL " style, but file predominantly uses " ++
        styleName dominantStyle]
    else []
   else [])

/-- The document rewrite one match contributes in the second pass: when the
expression should be multiline, its field is replaced by a literal block
scalar. -/
def matchFormatted (disableLineLength : Bool) (formatted : Str) (m : ExprMatch) : Str :=
  let expression := exprOf m
  if shouldBeMultiline expression disableLineLength then
    let formattedExpr := formatPromQLMultiline expression
    let indentation := getIndentation m.fullMatch
    let newBlock := formatYAMLBlock m.keyPfx formattedExpr indentation
    strReplace1 formatted m.fullMatch newBlock
  else formatted

/-- One match of the second pass: append its issues and update the rewritten
document. -/
def secondPassStep (dominantStyle : AggregationStyle) (disableLineLength : Bool)
    (acc : List Str × Str) (m : ExprMatch) : List Str × Str :=
  (acc.1 ++ matchChunk dominantStyle disableLineLength m,
   matchFormatted disableLineLength acc.2 m)

/-- `CheckAndFormatPromQL(content, opts)`: the hysteresis check, the
continuity check (only with a Prometheus URL), the style-tally first pass,
and the per-expression second pass. -/
def CheckAndFormatPromQL (env : WorldEnv) (content : Str) (opts : CheckOptions) :
    List Str × Str :=
  let hysteresisIssues := checkAlertHysteresisWithDuration env content
  let continuityIssues :=
    if !opts.prometheusURL.isEmpty then checkTimeseriesContinuity env content else []
  let exprMatches := findExprMatches content
  let counts := styleCounts exprMatches
  let dominantStyle := determineDominantStyle counts.1 counts.2
  let second := exprMatches.foldl (secondPassStep dominantStyle opts.disableLineLength)
    ([], content)
  (hysteresisIssues ++ continuityIssues ++ second.1, second.2)

/-! ### Specification-side definitions

These definitions follow the words of the specification (not the source);
the theorems below compare the source-derived functions against them. -/

/-- Spec side, C7: position `i` of `s` starts a whole-token occurrence of
`w` — `w` occurs at `i` and both neighbours (when present) are non-word
characters. -/
def wholeTokenAt (s w : Str) (i : Nat) : Bool :=
  w.isPrefixOf (s.drop i) && (i = 0 || !wordAt s (i - 1)) && !wordAt s (i + w.length)

/-- Spec side, C7: the number of whole-token occurrences of `w` in `s`. -/
def wholeTokenCount (s w : Str) : Nat :=
  ((List.range s.length).filter (wholeTokenAt s w)).length

/-- Spec side, C7: the recognized keywords, and the total of their
case-insensitive whole-token occurrence counts. -/
def multilineKeywordTokens (expr : Str) : Nat :=
  ((["and", "or", "unless", "by", "without", "on", "ignoring"].map String.data).map
    (wholeTokenCount (toLowerStr expr))).sum

/-- Spec side, C2: the flagging condition of `placementLoop` at index `i`,
stated declaratively over the split parts. -/
def placementHit (hasComparison : Bool) (parts : List Str) (i : Nat) : Bool :=
  let aggClause := extractTrailingAggregation (trimSpace (parts.getD i []))
  let nextAggClause := extractTrailingAggregation
    (truncAtComparison hasComparison (trimSpace (parts.getD (i + 1) [])))
  !aggClause.isEmpty && (nextAggClause.isEmpty || nextAggClause = aggClause)

/-- Spec side, C6: an issue string is a style-consistency issue exactly when
it starts with this prefix; `noInconsistent` holds of every other issue. -/
def noInconsistent (s : Str) : Bool :=
  !(strL "Inconsistent aggregation clause positioning").isPrefixOf s

/-- All (possibly overlapping) occurrence positions of `sub` in `s`. -/
def countOcc (s sub : Str) : Nat :=
  (List.range s.length).countP (fun i => sub.isPrefixOf (s.drop i))

/-- A world whose YAML layer always yields one recording rule over
`my_metric` and whose Prometheus answers one series with a 200-second gap
between samples. -/
def contEnvSparse : WorldEnv :=
  ⟨fun _ => some ⟨[⟨strL "g", [], [⟨[], strL "r", strL "my_metric", []⟩]⟩]⟩,
   fun _ => .ok [[0, 200]]⟩

/-- The same world except that the Prometheus answer has 60-second sample
spacing (no gap over 120 seconds). -/
def contEnvFast : WorldEnv :=
  ⟨fun _ => some ⟨[⟨strL "g", [], [⟨[], strL "r", strL "my_metric", []⟩]⟩]⟩,
   fun _ => .ok [[0, 60]]⟩

/-! ### Theorems -/

/-- `prevAfter l prev`: the character preceding the position right after
`l`, when the character preceding `l` was `prev`. -/
def prevAfter (l : Str) (prev : Option Char) : Option Char :=
  match l with
  | [] => prev
  | _ :: _ => l.getLast?

lemma prevAfter_none (l : Str) : prevAfter l none = l.getLast? := by
  cases l <;> rfl

lemma sbboStateFold_concat (l : Str) (c : Char) (prev : Option Char)
    (st : Int × Bool × Char) :
    sbboStateFold (l ++ [c]) prev st =
      sbboStep1 (prevAfter l prev) (sbboStateFold l prev st) c := by
  induction l generalizing prev st with
  | nil => rfl
  | cons a t ih =>
    simp only [List.cons_append, sbboStateFold, List.append_eq]
    rw [ih]
    congr 1
    cases t with
    | nil => rfl
    | cons b t' => rfl

lemma sbboEligible_at (pre : Str) (c : Char) (rest' : Str) (op : Str) :
    sbboEligible (pre ++ c :: rest') op pre.length =
      (!quoteTrigger pre.getLast? c &&
        !(sbboStateFold pre none (0, false, nulChar)).2.1 &&
        decide ((sbboStateFold pre none (0, false, nulChar)).1 + parenDelta c = 0) &&
        op.isPrefixOf (c :: rest')) := by
  unfold sbboEligible
  rw [List.drop_left, List.take_left]
  rfl

lemma sbboLoop_eq_find (op : Str) (rest : Str) : ∀ (pre : Str),
    sbboLoop op rest pre.length pre.getLast?
        (sbboStateFold pre none (0, false, nulChar)) =
      (List.range' pre.length rest.length).find? (sbboEligible (pre ++ rest) op) := by
  induction rest with
  | nil => intro pre; simp [sbboLoop, List.range']
  | cons c rest' ih =>
    intro pre
    have hfold : sbboStateFold (pre ++ [c]) none (0, false, nulChar) =
        sbboStep1 pre.getLast? (sbboStateFold pre none (0, false, nulChar)) c := by
      rw [sbboStateFold_concat, prevAfter_none]
    have harg1 : (pre ++ [c]).length = pre.length + 1 := by simp
    have harg2 : (pre ++ [c]).getLast? = some c := by simp
    have harg3 : (pre ++ [c]) ++ rest' = pre ++ c :: rest' := by simp
    have key := ih (pre ++ [c])
    rw [harg1, harg2, harg3, hfold] at key
    have hrange : List.range' pre.length (c :: rest').length =
        pre.length :: List.range' (pre.length + 1) rest'.length := rfl
    rw [hrange]
    simp only [sbboLoop]
    cases hcond : (!quoteTrigger pre.getLast? c &&
        !(sbboStateFold pre none (0, false, nulChar)).2.1 &&
        decide ((sbboStateFold pre none (0, false, nulChar)).1 + parenDelta c = 0) &&
        op.isPrefixOf (c :: rest')) with
    | true =>
      rw [List.find?_cons_of_pos _ (by rw [sbboEligible_at]; exact hcond)]
      simp
    | false =>
      rw [List.find?_cons_of_neg _ (by simp [sbboEligible_at, hcond])]
      simpa using key

lemma sbboEligible_isPrefixOf {expr op : Str} {i : Nat}
    (h : sbboEligible expr op i = true) : op.isPrefixOf (expr.drop i) = true := by
  unfold sbboEligible at h
  cases hh : (expr.drop i).head? with
  | none => rw [hh] at h; exact absurd h (by simp)
  | some c =>
    rw [hh] at h
    simp only [Bool.and_eq_true] at h
    exact h.2

/-- C3: `splitByBinaryOperator` splits exactly at the first index that is at
parenthesis depth 0 and outside quotes (per the scanner's state over the
prefix) where the operator token starts, and does not split when no such
index exists. `List.find?` over `range` returns the least such index, so the
scan stops at the first match. -/
theorem splitByBinaryOperator_first_match (expr op : Str) :
    splitByBinaryOperator expr op =
      match (List.range expr.length).find? (sbboEligible expr op) with
      | some i => [expr.take i, expr.drop (i + op.length)]
      | none => [expr] := by
  have key := sbboLoop_eq_find op expr []
  simp only [List.length_nil, List.getLast?_nil, sbboStateFold, List.nil_append] at key
  unfold splitByBinaryOperator
  rw [List.range_eq_range']
  rw [key]

/-- C10: the split is lossless — either the expression is returned whole, or
the two parts rebuild the expression around the operator. -/
theorem splitByBinaryOperator_roundtrip (expr op : Str) :
    splitByBinaryOperator expr op = [expr] ∨
      ∃ l r, splitByBinaryOperator expr op = [l, r] ∧ l ++ op ++ r = expr := by
  have key := sbboLoop_eq_find op expr []
  simp only [List.length_nil, List.getLast?_nil, sbboStateFold, List.nil_append] at key
  unfold splitByBinaryOperator
  rw [← List.range_eq_range'] at key
  rw [key]
  cases hf : (List.range expr.length).find? (sbboEligible expr op) with
  | none => left; rfl
  | some i =>
    right
    refine ⟨expr.take i, expr.drop (i + op.length), rfl, ?_⟩
    have helig : sbboEligible expr op i = true := List.find?_some hf
    have hpre : op.isPrefixOf (expr.drop i) = true := sbboEligible_isPrefixOf helig
    rw [List.isPrefixOf_iff_prefix] at hpre
    obtain ⟨t, ht⟩ := hpre
    have ht2 : expr.drop (i + op.length) = t := by
      rw [← List.drop_drop op.length i expr, ← ht, List.drop_left]
    rw [ht2, List.append_assoc, ht, List.take_append_drop]

lemma placementHit_cons_succ (hc : Bool) (p0 : Str) (tail : List Str) (i : Nat) :
    placementHit hc (p0 :: tail) (i + 1) = placementHit hc tail i := by
  simp [placementHit, List.getD_cons_succ]

lemma placementHit_exists_cons {hc : Bool} {p0 : Str} {tail : List Str}
    (h0 : placementHit hc (p0 :: tail) 0 = false) :
    (∃ i, i + 1 < (p0 :: tail).length ∧ placementHit hc (p0 :: tail) i = true) ↔
      (∃ i, i + 1 < tail.length ∧ placementHit hc tail i = true) := by
  constructor
  · rintro ⟨i, hlt, hhit⟩
    cases i with
    | zero => rw [h0] at hhit; exact absurd hhit (by simp)
    | succ j =>
      refine ⟨j, ?_, ?_⟩
      · simpa using hlt
      · rw [← placementHit_cons_succ hc p0 tail j]; exact hhit
  · rintro ⟨j, hlt, hhit⟩
    refine ⟨j + 1, by simpa using hlt, ?_⟩
    rw [placementHit_cons_succ hc p0 tail j]; exact hhit

lemma placementLoop_cons_cons (hc : Bool) (p0 p1 : Str) (rest : List Str) :
    placementLoop hc (p0 :: p1 :: rest) =
      if placementHit hc (p0 :: p1 :: rest) 0 = true then
        [strL "Aggregation clause '" ++ extractTrailingAggregation (trimSpace p0) ++
          strL "' should only appear on the final operand, not intermediate operands"]
      else placementLoop hc (p1 :: rest) := by
  cases hA : (extractTrailingAggregation (trimSpace p0)).isEmpty with
  | true => simp [placementLoop, placementHit, hA]
  | false =>
    cases hN : ((extractTrailingAggregation
        (truncAtComparison hc (trimSpace p1))).isEmpty ||
        decide (extractTrailingAggregation (truncAtComparison hc (trimSpace p1)) =
          extractTrailingAggregation (trimSpace p0))) with
    | true => simp [placementLoop, placementHit, hA, hN]
    | false => simp [placementLoop, placementHit, hA, hN]

/-- C2 (amended): over the parts of a same-operator chain, `placementLoop`
emits an issue exactly when some non-final part carries a trailing clause and
the immediately following part (truncated at a comparison operator) carries
no clause or the same clause. -/
theorem placementLoop_flags_iff (hc : Bool) (parts : List Str) :
    placementLoop hc parts ≠ [] ↔
      ∃ i, i + 1 < parts.length ∧ placementHit hc parts i = true := by
  induction parts with
  | nil => simp [placementLoop]
  | cons p0 tail ih =>
    cases tail with
    | nil => simp [placementLoop]
    | cons p1 rest =>
      rw [placementLoop_cons_cons]
      cases h0 : placementHit hc (p0 :: p1 :: rest) 0 with
      | true =>
        constructor
        · intro _
          exact ⟨0, by simp, h0⟩
        · intro _
          simp
      | false =>
        rw [if_neg Bool.false_ne_true]
        rw [placementHit_exists_cons h0]
        exact ih

/-- C5 (amended): the dominant style is postfix exactly when the postfix
count is positive and at least the prefix count (so non-zero ties resolve to
postfix), prefix exactly when the prefix count is strictly larger, and
unknown exactly when both counters are zero. -/
theorem determineDominantStyle_characterization (postfixCount prefixCount : Nat) :
    (determineDominantStyle postfixCount prefixCount = AggregationStylePostfix ↔
      prefixCount ≤ postfixCount ∧ 0 < postfixCount) ∧
    (determineDominantStyle postfixCount prefixCount = AggregationStylePrefix ↔
      postfixCount < prefixCount) ∧
    (determineDominantStyle postfixCount prefixCount = AggregationStyleUnknown ↔
      postfixCount = 0 ∧ prefixCount = 0) := by
  unfold determineDominantStyle
  split_ifs with h1 h2 h3 <;>
    refine ⟨?_, ?_, ?_⟩ <;> simp <;> omega

/-- C5 (counterexample): with both counters zero — a document with no
stylable expression — the dominant style is `AggregationStyleUnknown`, not
`AggregationStylePostfix` as the claim requires of a tie at zero. -/
theorem determineDominantStyle_zero_zero :
    determineDominantStyle 0 0 = AggregationStyleUnknown ∧
      determineDominantStyle 0 0 ≠ AggregationStylePostfix := by
  constructor
  · rfl
  · intro h
    exact absurd h (by decide)

/-- C2 (counterexample): on `sum(a) by (x) / sum(b)` the following operand
carries no clause, yet a placement issue is emitted — the claim requires
none; on `sum(a) by (x) / sum(b) by (y)` the following operand carries a
different clause, and no issue is emitted — the claim requires one. -/
theorem checkAggregationPlacement_counterexample :
    checkAggregationPlacement (strL "sum(a) by (x) / sum(b)") =
      [strL "Aggregation clause ') by (x)' should only appear on the final operand, not intermediate operands"] ∧
    checkAggregationPlacement (strL "sum(a) by (x) / sum(b) by (y)") = [] := by
  exact ⟨by rfl, by rfl⟩

/-- C1 (counterexample): both operands end in the identical trailing clause
`) without (x)`, and `checkRedundantAggregations` does emit a redundancy
issue for it, contrary to the claim that `without` clauses are never marked
redundant. -/
theorem checkRedundantAggregations_without_counterexample :
    checkRedundantAggregations (strL "sum(a) without (x) / sum(b) without (x)") =
      [strL "Redundant aggregation clause ') without (x)' on left side of ' / ' - only specify on the final operand"] := by
  rfl

/-- C1 (amended): the `without` exception lives only in the formatter: the
omission flag of `formatPromQLMultiline` is never set when the left trailing
clause contains `without`, and on the counterexample expression the
rendering keeps the clause on both operands (while
`checkRedundantAggregations` does emit a redundancy issue, see the
counterexample). -/
theorem formatPromQLMultiline_keeps_without :
    (∀ leftAgg rightAgg : Str, strContains leftAgg (strL "without") = true →
      omitLeftAggFlag leftAgg rightAgg = false) ∧
    formatPromQLMultiline (strL "sum(a) without (x) / sum(b) without (x)") =
      strL "sum without (x) (\n  a\n)\n  /\nsum without (x) (\n  b\n)" := by
  constructor
  · intro a b h
    unfold omitLeftAggFlag
    rw [h]
    simp
  · rfl

/-- Witness for the amended C1 theorem at the counterexample's clauses. -/
theorem formatPromQLMultiline_keeps_without_witness :
    strContains (strL ") without (x)") (strL "without") = true ∧
      omitLeftAggFlag (strL ") without (x)") (strL ") without (x)") = false :=
  ⟨by decide, formatPromQLMultiline_keeps_without.1 _ _ (by decide)⟩

/-- C4: on the README example the analysis reports the left operand's
`) by (instance)` clause as redundant, and the multiline rendering keeps the
`by (instance)` clause only on the right operand while the `/` operator line
carries the `on (instance)` vector-matching hint. -/
theorem readmeExample_redundancy_and_format :
    checkRedundantAggregations (strL "sum(rate(http_requests_total\x7bjob=\"api\",status=~\"5..\"\x7d[5m])) by (instance) / sum(rate(http_requests_total\x7bjob=\"api\"\x7d[5m])) by (instance)") =
      [strL "Redundant aggregation clause ') by (instance)' on left side of ' / ' - only specify on the final operand"] ∧
    formatPromQLMultiline (strL "sum(rate(http_requests_total\x7bjob=\"api\",status=~\"5..\"\x7d[5m])) by (instance) / sum(rate(http_requests_total\x7bjob=\"api\"\x7d[5m])) by (instance)") =
      strL "sum (\n  rate(http_requests_total\x7bjob=\"api\",status=~\"5..\"\x7d[5m])\n)\n  / on (instance)\nsum by (instance) (\n  rate(http_requests_total\x7bjob=\"api\"\x7d[5m])\n)" := by
  exact ⟨by rfl, by rfl⟩

lemma countOcc_cons (c : Char) (t sub : Str) :
    countOcc (c :: t) sub =
      (if sub.isPrefixOf (c :: t) then 1 else 0) + countOcc t sub := by
  unfold countOcc
  rw [show (c :: t).length = t.length + 1 from rfl, List.range_succ_eq_map,
    List.countP_cons, List.countP_map]
  have : ((fun i => sub.isPrefixOf ((c :: t).drop i)) ∘ Nat.succ) =
      (fun i => sub.isPrefixOf (t.drop i)) := rfl
  rw [this]
  by_cases h : sub.isPrefixOf (c :: t) = true
  · rw [if_pos h]
    simp [h]
    omega
  · rw [if_neg h]
    simp [Bool.eq_false_iff.mpr h]

lemma strCountAux_le_countOcc (sub : Str) (s : Str) : ∀ (skip : Nat),
    strCountAux sub s skip ≤ countOcc s sub := by
  induction s with
  | nil => intro skip; simp [strCountAux]
  | cons c t ih =>
    intro skip
    rw [countOcc_cons]
    unfold strCountAux
    by_cases hskip : skip > 0
    · rw [if_pos hskip]
      have := ih (skip - 1)
      split <;> omega
    · rw [if_neg hskip]
      by_cases hp : sub.isPrefixOf (c :: t) = true
      · rw [if_pos hp, if_pos hp]
        have := ih (sub.length - 1)
        omega
      · rw [if_neg hp, if_neg hp]
        have := ih 0
        omega

lemma countP_range_shift (p q : Nat → Bool) (n : Nat)
    (h : ∀ i, i < n → p i = true → i + 1 < n ∧ q (i + 1) = true) :
    (List.range n).countP p ≤ (List.range n).countP q := by
  rw [List.countP_eq_length_filter, List.countP_eq_length_filter]
  have hlen : (((List.range n).filter p).map (· + 1)).length =
      ((List.range n).filter p).length := List.length_map _ _
  rw [← hlen]
  apply List.Subperm.length_le
  apply List.Nodup.subperm
  · exact ((List.nodup_range n).filter p).map (fun a b hab => by omega)
  · intro j hj
    simp only [List.mem_map, List.mem_filter, List.mem_range] at hj ⊢
    obtain ⟨i, ⟨hin, hpi⟩, rfl⟩ := hj
    exact ⟨(h i hin hpi).1, (h i hin hpi).2⟩

lemma padded_occ_le_tokens (s w : Str) :
    countOcc s (' ' :: w ++ [' ']) ≤ wholeTokenCount s w := by
  unfold countOcc wholeTokenCount
  rw [← List.countP_eq_length_filter]
  apply countP_range_shift
  intro i hin hpi
  rw [List.isPrefixOf_iff_prefix] at hpi
  obtain ⟨t, ht⟩ := hpi
  have hlen : i + (w.length + 2 + t.length) = s.length := by
    have := congrArg List.length ht
    simp at this
    have hdl : (s.drop i).length = s.length - i := List.length_drop _ _
    omega
  have hdrop1 : s.drop (i + 1) = (w ++ [' ']) ++ t := by
    have : s.drop (i + 1) = (s.drop i).drop 1 := by
      rw [List.drop_drop]
    rw [this, ← ht]
    rfl
  have hchar_i : s[i]? = some ' ' := by
    rw [← List.head?_drop, ← ht]
    rfl
  have hchar_after : s[i + 1 + w.length]? = some ' ' := by
    have h1 : s[i + 1 + w.length]? = (s.drop (i + 1))[w.length]? := by
      rw [List.getElem?_drop]
    rw [h1, hdrop1, List.append_assoc, List.getElem?_append_right (Nat.le_refl _)]
    simp
  refine ⟨by omega, ?_⟩
  unfold wholeTokenAt
  have h1 : w.isPrefixOf (s.drop (i + 1)) = true := by
    rw [hdrop1, List.append_assoc, List.isPrefixOf_iff_prefix]
    exact List.prefix_append _ _
  have h2 : wordAt s i = false := by
    unfold wordAt
    rw [hchar_i]
    rfl
  have h3 : wordAt s (i + 1 + w.length) = false := by
    unfold wordAt
    rw [hchar_after]
    rfl
  simp [h1, h2, h3]

lemma strCount_padded_le_tokens (s w : Str) :
    strCount s (' ' :: w ++ [' ']) ≤ wholeTokenCount s w := by
  unfold strCount
  rw [if_neg (by simp)]
  exact le_trans (strCountAux_le_countOcc _ _ 0) (padded_occ_le_tokens s w)

/-- C7: an expression of at most 80 characters with fewer than two
case-insensitive whole-token occurrences of the recognized keywords is not
formatted as multiline (line-length heuristic enabled). -/
theorem shouldBeMultiline_short_simple_false (expr : Str)
    (hlen : expr.length ≤ 80) (htok : multilineKeywordTokens expr < 2) :
    shouldBeMultiline expr false = false := by
  unfold shouldBeMultiline
  rw [if_neg (by simp; omega)]
  have e1 : strL " and " = ' ' :: strL "and" ++ [' '] := rfl
  have e2 : strL " or " = ' ' :: strL "or" ++ [' '] := rfl
  have e3 : strL " unless " = ' ' :: strL "unless" ++ [' '] := rfl
  have e4 : strL " by " = ' ' :: strL "by" ++ [' '] := rfl
  have e5 : strL " without " = ' ' :: strL "without" ++ [' '] := rfl
  have e6 : strL " on " = ' ' :: strL "on" ++ [' '] := rfl
  have e7 : strL " ignoring " = ' ' :: strL "ignoring" ++ [' '] := rfl
  have b1 := strCount_padded_le_tokens (toLowerStr expr) (strL "and")
  have b2 := strCount_padded_le_tokens (toLowerStr expr) (strL "or")
  have b3 := strCount_padded_le_tokens (toLowerStr expr) (strL "unless")
  have b4 := strCount_padded_le_tokens (toLowerStr expr) (strL "by")
  have b5 := strCount_padded_le_tokens (toLowerStr expr) (strL "without")
  have b6 := strCount_padded_le_tokens (toLowerStr expr) (strL "on")
  have b7 := strCount_padded_le_tokens (toLowerStr expr) (strL "ignoring")
  apply decide_eq_false
  have expand1 : (multilineOperators.map (fun op => strCount (toLowerStr expr) op)).sum =
      strCount (toLowerStr expr) (strL " and ") + (strCount (toLowerStr expr) (strL " or ") +
        (strCount (toLowerStr expr) (strL " unless ") + (strCount (toLowerStr expr) (strL " by ") +
          (strCount (toLowerStr expr) (strL " without ") + (strCount (toLowerStr expr) (strL " on ") +
            (strCount (toLowerStr expr) (strL " ignoring ") + 0)))))) := rfl
  have expand2 : multilineKeywordTokens expr =
      wholeTokenCount (toLowerStr expr) (strL "and") + (wholeTokenCount (toLowerStr expr) (strL "or") +
        (wholeTokenCount (toLowerStr expr) (strL "unless") + (wholeTokenCount (toLowerStr expr) (strL "by") +
          (wholeTokenCount (toLowerStr expr) (strL "without") + (wholeTokenCount (toLowerStr expr) (strL "on") +
            (wholeTokenCount (toLowerStr expr) (strL "ignoring") + 0)))))) := rfl
  rw [expand2] at htok
  rw [expand1, e1, e2, e3, e4, e5, e6, e7]
  omega

/-- Witness for C7 at a short, keyword-free expression. -/
theorem shouldBeMultiline_short_simple_false_witness :
    (strL "sum(a) / sum(b)").length ≤ 80 ∧
      multilineKeywordTokens (strL "sum(a) / sum(b)") < 2 ∧
      shouldBeMultiline (strL "sum(a) / sum(b)") false = false :=
  ⟨by decide, by decide,
    shouldBeMultiline_short_simple_false _ (by decide) (by decide)⟩

lemma ne_of_head? {s t : Str} (h : s.head? ≠ t.head?) : s ≠ t :=
  fun e => h (congrArg List.head? e)

/-- C8: `sum(a) / sum(b)` raises the division-guard issue and
`sum(a) / sum(b) or 0` does not; in general the issue is emitted exactly
when the expression contains `" / "` but neither `" or "` nor `"!= 0"`. -/
theorem checkInstrumentationPatterns_division_guard :
    divisionIssueMsg ∈ checkInstrumentationPatterns (strL "sum(a) / sum(b)") ∧
    divisionIssueMsg ∉ checkInstrumentationPatterns (strL "sum(a) / sum(b) or 0") ∧
    ∀ expr : Str, divisionIssueMsg ∈ checkInstrumentationPatterns expr ↔
      (strContains expr (strL " / ") = true ∧ strContains expr (strL " or ") = false ∧
        strContains expr (strL "!= 0") = false) := by
  refine ⟨by decide, by decide, ?_⟩
  intro expr
  unfold checkInstrumentationPatterns
  rw [List.mem_append]
  constructor
  · rintro (hrate | hdiv)
    · exfalso
      rw [List.mem_flatMap] at hrate
      obtain ⟨m, _, hmem⟩ := hrate
      replace hmem : divisionIssueMsg ∈
          (if (!List.isSuffixOf (strL "_total") (capStr expr m.2.2 2) &&
              !List.isSuffixOf (strL "_seconds_total") (capStr expr m.2.2 2) &&
              !List.isSuffixOf (strL "_count") (capStr expr m.2.2 2) &&
              !strContains (capStr expr m.2.2 2) (strL "_seconds")) = true then
            [strL "Using " ++ capStr expr m.2.2 1 ++ strL "() on '" ++
              capStr expr m.2.2 2 ++
              strL "' which may not be a counter - rate() should only be used with counters"]
          else []) := hmem
      split at hmem
      · simp only [List.mem_singleton] at hmem
        have hU : (strL "Using " ++ capStr expr m.2.2 1 ++ strL "() on '" ++
            capStr expr m.2.2 2 ++
            strL "' which may not be a counter - rate() should only be used with counters").head? =
            some 'U' := rfl
        have hD : divisionIssueMsg.head? = some 'D' := rfl
        have hh := congrArg List.head? hmem
        rw [hD, hU] at hh
        exact absurd hh (by decide)
      · exact absurd hmem (by simp)
    · cases h1 : strContains expr (strL " / ") <;>
        cases h2 : strContains expr (strL " or ") <;>
        cases h3 : strContains expr (strL "!= 0") <;>
        simp [h1, h2, h3] at hdiv ⊢
  · rintro ⟨h1, h2, h3⟩
    right
    simp [h1, h2, h3]

lemma noInconsistent_append (k x : Str)
    (h1 : k.isPrefixOf (strL "Inconsistent aggregation clause positioning") = false)
    (h2 : (strL "Inconsistent aggregation clause positioning").isPrefixOf k = false) :
    noInconsistent (k ++ x) = true := by
  unfold noInconsistent
  cases hp : (strL "Inconsistent aggregation clause positioning").isPrefixOf (k ++ x) with
  | false => rfl
  | true =>
    exfalso
    have hp' := List.isPrefixOf_iff_prefix.mp hp
    rcases List.prefix_or_prefix_of_prefix hp' (List.prefix_append k x) with hc | hc
    · rw [← List.isPrefixOf_iff_prefix] at hc
      rw [h2] at hc
      exact Bool.false_ne_true hc
    · rw [← List.isPrefixOf_iff_prefix] at hc
      rw [h1] at hc
      exact Bool.false_ne_true hc

lemma checkRedundantAggregations_noInc (expr : Str) :
    ∀ s ∈ checkRedundantAggregations expr, noInconsistent s = true := by
  intro s hs
  unfold checkRedundantAggregations at hs
  simp only [List.mem_flatMap] at hs
  obtain ⟨op, _, hmem⟩ := hs
  split at hmem
  · exact absurd hmem (by simp)
  · split at hmem
    · exact absurd hmem (by simp)
    · split at hmem
      · exact absurd hmem (by simp)
      · split at hmem
        · exact absurd hmem (by simp)
        · split at hmem
          · simp only [List.mem_singleton] at hmem
            subst hmem
            simp only [List.append_assoc]
            exact noInconsistent_append _ _ (by decide) (by decide)
          · exact absurd hmem (by simp)

lemma noInc_of_ite_singleton {c : Prop} [Decidable c] {msg s : Str}
    (hs : s ∈ (if c then [msg] else [])) (h : noInconsistent msg = true) :
    noInconsistent s = true := by
  split at hs
  · simp only [List.mem_singleton] at hs
    subst hs
    exact h
  · exact absurd hs (by simp)

lemma checkAggregationPlacement_noInc (expr : Str) :
    ∀ s ∈ checkAggregationPlacement expr, noInconsistent s = true := by
  have hloop : ∀ (hc : Bool) (parts : List Str), ∀ s ∈ placementLoop hc parts,
      noInconsistent s = true := by
    intro hc parts
    induction parts with
    | nil => intro s hs; exact absurd hs (by simp [placementLoop])
    | cons p0 tail ih =>
      cases tail with
      | nil => intro s hs; exact absurd hs (by simp [placementLoop])
      | cons p1 rest =>
        intro s hs
        rw [placementLoop_cons_cons] at hs
        split at hs
        · simp only [List.mem_singleton] at hs
          subst hs
          simp only [List.append_assoc]
          exact noInconsistent_append _ _ (by decide) (by decide)
        · exact ih s hs
  intro s hs
  unfold checkAggregationPlacement at hs
  simp only [List.mem_flatMap] at hs
  obtain ⟨op, _, hmem⟩ := hs
  split at hmem
  · exact absurd hmem (by simp)
  · split at hmem
    · exact absurd hmem (by simp)
    · exact hloop _ _ s hmem

lemma checkMetricNamingConventions_noInc (metricName : Str) :
    ∀ s ∈ checkMetricNamingConventions metricName, noInconsistent s = true := by
  intro s hs
  unfold checkMetricNamingConventions at hs
  split at hs
  · exact absurd hs (by simp)
  · simp only [List.mem_append] at hs
    rcases hs with (hs | hs) | hs
    · refine noInc_of_ite_singleton hs ?_
      simp only [List.append_assoc]
      exact noInconsistent_append _ _ (by decide) (by decide)
    · refine noInc_of_ite_singleton hs ?_
      simp only [List.append_assoc]
      exact noInconsistent_append _ _ (by decide) (by decide)
    · refine noInc_of_ite_singleton hs ?_
      simp only [List.append_assoc]
      exact noInconsistent_append _ _ (by decide) (by decide)

lemma checkMetricSuffixes_noInc (metricName : Str) :
    ∀ s ∈ checkMetricSuffixes metricName, noInconsistent s = true := by
  intro s hs
  unfold checkMetricSuffixes at hs
  simp only [List.mem_append] at hs
  rcases hs with (hs | hs) | hs
  · refine noInc_of_ite_singleton hs ?_
    simp only [List.append_assoc]
    exact noInconsistent_append _ _ (by decide) (by decide)
  · simp only [List.mem_flatMap] at hs
    obtain ⟨p, _, hmem⟩ := hs
    refine noInc_of_ite_singleton hmem ?_
    simp only [List.append_assoc]
    exact noInconsistent_append _ _ (by decide) (by decide)
  · refine noInc_of_ite_singleton hs ?_
    simp only [List.append_assoc]
    exact noInconsistent_append _ _ (by decide) (by decide)

lemma checkRecordingRuleNaming_noInc (metricName : Str) :
    ∀ s ∈ checkRecordingRuleNaming metricName, noInconsistent s = true := by
  intro s hs
  unfold checkRecordingRuleNaming at hs
  split at hs
  · exact absurd hs (by simp)
  · simp only [List.mem_append] at hs
    split at hs
    · simp only [List.mem_singleton] at hs
      subst hs
      simp only [List.append_assoc]
      exact noInconsistent_append _ _ (by decide) (by decide)
    · simp only [List.mem_append] at hs
      rcases hs with ((((hs | hs) | hs) | hs) | hs)
      · refine noInc_of_ite_singleton hs ?_
        simp only [List.append_assoc]
        exact noInconsistent_append _ _ (by decide) (by decide)
      · refine noInc_of_ite_singleton hs ?_
        simp only [List.append_assoc]
        exact noInconsistent_append _ _ (by decide) (by decide)
      · refine noInc_of_ite_singleton hs ?_
        simp only [List.append_assoc]
        exact noInconsistent_append _ _ (by decide) (by decide)
      · split at hs
        · simp only [List.mem_append] at hs
          rcases hs with ((hs | hs) | hs) | hs
          · refine noInc_of_ite_singleton hs ?_
            simp only [List.append_assoc]
            exact noInconsistent_append _ _ (by decide) (by decide)
          · refine noInc_of_ite_singleton hs ?_
            simp only [List.append_assoc]
            exact noInconsistent_append _ _ (by decide) (by decide)
          · refine noInc_of_ite_singleton hs ?_
            simp only [List.append_assoc]
            exact noInconsistent_append _ _ (by decide) (by decide)
          · refine noInc_of_ite_singleton hs ?_
            simp only [List.append_assoc]
            exact noInconsistent_append _ _ (by decide) (by decide)
        · exact absurd hs (by simp)
      · split at hs
        · split at hs
          · simp only [List.mem_singleton] at hs
            subst hs
            simp only [List.append_assoc]
            exact noInconsistent_append _ _ (by decide) (by decide)
          · exact absurd hs (by simp)
        · exact absurd hs (by simp)

lemma checkVariableNaming_noInc (expr : Str) :
    ∀ s ∈ checkVariableNaming expr, noInconsistent s = true := by
  intro s hs
  unfold checkVariableNaming at hs
  simp only [List.mem_flatMap] at hs
  obtain ⟨m, _, hmem⟩ := hs
  split at hmem
  · simp only [List.mem_singleton] at hmem
    subst hmem
    simp only [List.append_assoc]
    exact noInconsistent_append _ _ (by decide) (by decide)
  · simp only [List.mem_append] at hmem
    rcases hmem with (hs2 | hs2) | hs2
    · split at hs2
      · refine noInc_of_ite_singleton hs2 ?_
        simp only [List.append_assoc]
        exact noInconsistent_append _ _ (by decide) (by decide)
      · exact absurd hs2 (by simp)
    · refine noInc_of_ite_singleton hs2 ?_
      simp only [List.append_assoc]
      exact noInconsistent_append _ _ (by decide) (by decide)
    · simp only [List.mem_flatMap] at hs2
      obtain ⟨mt, _, hmem2⟩ := hs2
      refine noInc_of_ite_singleton hmem2 ?_
      simp only [List.append_assoc]
      exact noInconsistent_append _ _ (by decide) (by decide)

lemma labelIssuesFor_noInc (labelName : Str) :
    ∀ s ∈ labelIssuesFor labelName, noInconsistent s = true := by
  intro s hs
  unfold labelIssuesFor at hs
  split at hs
  · simp only [List.mem_singleton] at hs
    subst hs
    simp only [List.append_assoc]
    exact noInconsistent_append _ _ (by decide) (by decide)
  · simp only [List.mem_append] at hs
    rcases hs with hs | hs
    · split at hs
      · simp only [List.mem_singleton] at hs
        subst hs
        simp only [List.append_assoc]
        exact noInconsistent_append _ _ (by decide) (by decide)
      · split at hs
        · simp only [List.mem_singleton] at hs
          subst hs
          simp only [List.append_assoc]
          exact noInconsistent_append _ _ (by decide) (by decide)
        · exact absurd hs (by simp)
    · simp only [List.mem_flatMap] at hs
      obtain ⟨g, _, hmem⟩ := hs
      refine noInc_of_ite_singleton hmem ?_
      simp only [List.append_assoc]
      exact noInconsistent_append _ _ (by decide) (by decide)

lemma labelPairStep_noInc (acc : List Str × List Str) (pair0 : Str)
    (hacc : ∀ s ∈ acc.2, noInconsistent s = true) :
    ∀ s ∈ (labelPairStep acc pair0).2, noInconsistent s = true := by
  intro s hs
  unfold labelPairStep at hs
  cases hln : labelNameOf (trimSpace pair0) with
  | none =>
    simp only [hln] at hs
    exact hacc s hs
  | some ln =>
    simp only [hln] at hs
    split at hs
    · exact hacc s hs
    · simp only [List.mem_append] at hs
      rcases hs with hs | hs
      · exact hacc s hs
      · exact labelIssuesFor_noInc ln s hs

lemma foldl_pres2 {α : Type} (P : Str → Bool)
    (step : List Str × List Str → α → List Str × List Str)
    (hstep : ∀ acc a, (∀ s ∈ acc.2, P s = true) → ∀ s ∈ (step acc a).2, P s = true) :
    ∀ (l : List α) (acc), (∀ s ∈ acc.2, P s = true) →
      ∀ s ∈ (l.foldl step acc).2, P s = true := by
  intro l
  induction l with
  | nil => intro acc h; simpa using h
  | cons a t ih =>
    intro acc h
    simp only [List.foldl_cons]
    exact ih _ (hstep acc a h)

lemma checkLabelNaming_noInc (expr : Str) :
    ∀ s ∈ checkLabelNaming expr, noInconsistent s = true := by
  unfold checkLabelNaming
  refine foldl_pres2 noInconsistent (labelSelStep expr) ?_ _ _ (by simp)
  intro acc m hacc
  unfold labelSelStep
  exact foldl_pres2 noInconsistent labelPairStep
    (fun acc' a' h' => labelPairStep_noInc acc' a' h') _ _ hacc

lemma checkInstrumentationPatterns_noInc (expr : Str) :
    ∀ s ∈ checkInstrumentationPatterns expr, noInconsistent s = true := by
  intro s hs
  unfold checkInstrumentationPatterns at hs
  simp only [List.mem_append] at hs
  rcases hs with hs | hs
  · simp only [List.mem_flatMap] at hs
    obtain ⟨m, _, hmem⟩ := hs
    refine noInc_of_ite_singleton hmem ?_
    simp only [List.append_assoc]
    exact noInconsistent_append _ _ (by decide) (by decide)
  · split at hs
    · split at hs
      · simp only [List.mem_singleton] at hs
        subst hs
        decide
      · exact absurd hs (by simp)
    · exact absurd hs (by simp)

lemma checkUtilizationDivisor_noInc (expr : Str) :
    ∀ s ∈ checkUtilizationDivisor expr, noInconsistent s = true := by
  intro s hs
  unfold checkUtilizationDivisor at hs
  split at hs
  · exact absurd hs (by simp)
  · simp only [List.mem_flatMap] at hs
    split at hs
    · exact absurd hs (by simp)
    · split at hs
      · exact absurd hs (by simp)
      · split at hs
        · simp only [List.mem_singleton] at hs
          subst hs
          decide
        · exact absurd hs (by simp)

lemma checkSyntheticMetrics_noInc (expr : Str) :
    ∀ s ∈ checkSyntheticMetrics expr, noInconsistent s = true := by
  intro s hs
  unfold checkSyntheticMetrics at hs
  simp only [List.mem_flatMap] at hs
  obtain ⟨m, _, hmem⟩ := hs
  refine noInc_of_ite_singleton hmem ?_
  decide

lemma checkPrometheusBestPractices_noInc (expr : Str) :
    ∀ s ∈ checkPrometheusBestPractices expr, noInconsistent s = true := by
  intro s hs
  unfold checkPrometheusBestPractices at hs
  simp only [List.mem_append] at hs
  rcases hs with ((((hs | hs) | hs) | hs) | hs) | hs
  · simp only [List.mem_flatMap] at hs
    obtain ⟨m, _, hmem⟩ := hs
    simp only [List.mem_append] at hmem
    rcases hmem with (hm | hm) | hm
    · exact checkMetricNamingConventions_noInc m s hm
    · exact checkMetricSuffixes_noInc m s hm
    · exact checkRecordingRuleNaming_noInc m s hm
  · exact checkVariableNaming_noInc expr s hs
  · exact checkLabelNaming_noInc expr s hs
  · exact checkInstrumentationPatterns_noInc expr s hs
  · exact checkUtilizationDivisor_noInc expr s hs
  · exact checkSyntheticMetrics_noInc expr s hs

lemma checkAlertHysteresisWithDuration_noInc (env : WorldEnv) (content : Str) :
    ∀ s ∈ checkAlertHysteresisWithDuration env content, noInconsistent s = true := by
  intro s hs
  unfold checkAlertHysteresisWithDuration at hs
  cases hy : env.yamlParse content with
  | none => rw [hy] at hs; exact absurd hs (by simp)
  | some rules =>
    rw [hy] at hs
    simp only [List.mem_flatMap] at hs
    obtain ⟨g, _, r, _, hmem⟩ := hs
    split at hmem
    · exact absurd hmem (by simp)
    · split at hmem
      · split at hmem
        · simp only [List.mem_singleton] at hmem
          subst hmem
          simp only [List.append_assoc]
          exact noInconsistent_append _ _ (by decide) (by decide)
        · exact absurd hmem (by simp)
      · exact absurd hmem (by simp)

lemma checkTimeseriesContinuity_noInc (env : WorldEnv) (content : Str) :
    ∀ s ∈ checkTimeseriesContinuity env content, noInconsistent s = true := by
  intro s hs
  unfold checkTimeseriesContinuity at hs
  cases hy : env.yamlParse content with
  | none => rw [hy] at hs; exact absurd hs (by simp)
  | some rules =>
    simp only [hy] at hs
    split at hs
    · exact absurd hs (by simp)
    · simp only [List.mem_flatMap] at hs
      obtain ⟨m, _, hmem⟩ := hs
      split at hmem
      · exact absurd hmem (by simp)
      · simp only [List.mem_singleton] at hmem
        subst hmem
        simp only [List.append_assoc]
        exact noInconsistent_append _ _ (by decide) (by decide)
      · exact absurd hmem (by simp)

lemma styleCounts_fold (ms : List ExprMatch) (a b : Nat) :
    ms.foldl (fun acc m =>
      match detectAggregationStyle (exprOf m) with
      | AggregationStylePostfix => (acc.1 + 1, acc.2)
      | AggregationStylePrefix => (acc.1, acc.2 + 1)
      | AggregationStyleUnknown => acc) (a, b) =
    (a + ms.countP (fun m =>
        decide (detectAggregationStyle (exprOf m) = AggregationStylePostfix)),
     b + ms.countP (fun m =>
        decide (detectAggregationStyle (exprOf m) = AggregationStylePrefix))) := by
  induction ms generalizing a b with
  | nil => simp
  | cons m ms ih =>
    simp only [List.foldl_cons, List.countP_cons]
    cases h : detectAggregationStyle (exprOf m) <;>
      simp [h, ih, Prod.ext_iff] <;> omega

lemma styleCounts_eq (ms : List ExprMatch) :
    styleCounts ms =
    (ms.countP (fun m =>
        decide (detectAggregationStyle (exprOf m) = AggregationStylePostfix)),
     ms.countP (fun m =>
        decide (detectAggregationStyle (exprOf m) = AggregationStylePrefix))) := by
  unfold styleCounts
  simpa using styleCounts_fold ms 0 0

lemma countP_stylable (ms : List ExprMatch) :
    ms.countP (fun m =>
      decide (detectAggregationStyle (exprOf m) ≠ AggregationStyleUnknown)) =
    ms.countP (fun m =>
      decide (detectAggregationStyle (exprOf m) = AggregationStylePostfix)) +
    ms.countP (fun m =>
      decide (detectAggregationStyle (exprOf m) = AggregationStylePrefix)) := by
  induction ms with
  | nil => rfl
  | cons m ms ih =>
    simp only [List.countP_cons, ih]
    cases h : detectAggregationStyle (exprOf m) <;> simp [h] <;> omega

lemma determineDominantStyle_cases (cp cq : Nat) (h : cp + cq ≤ 1) :
    determineDominantStyle cp cq = AggregationStyleUnknown ∨
    (determineDominantStyle cp cq = AggregationStylePostfix ∧ cq = 0) ∨
    (determineDominantStyle cp cq = AggregationStylePrefix ∧ cp = 0) := by
  have hcase : cp = 0 ∧ cq = 0 ∨ cp = 1 ∧ cq = 0 ∨ cp = 0 ∧ cq = 1 := by omega
  rcases hcase with ⟨h1, h2⟩ | ⟨h1, h2⟩ | ⟨h1, h2⟩ <;> subst h1 <;> subst h2
  · exact Or.inl (by decide)
  · exact Or.inr (Or.inl ⟨by decide, rfl⟩)
  · exact Or.inr (Or.inr ⟨by decide, rfl⟩)

lemma matchChunk_noInc (dom : AggregationStyle) (dll : Bool) (m : ExprMatch)
    (hm : detectAggregationStyle (exprOf m) = AggregationStyleUnknown ∨
          detectAggregationStyle (exprOf m) = dom ∨ dom = AggregationStyleUnknown) :
    ∀ s ∈ matchChunk dom dll m, noInconsistent s = true := by
  intro s hs
  unfold matchChunk at hs
  simp only [List.mem_append] at hs
  rcases hs with (((hs | hs) | hs) | hs) | hs
  · exact checkRedundantAggregations_noInc _ s hs
  · exact checkAggregationPlacement_noInc _ s hs
  · refine noInc_of_ite_singleton hs ?_
    rw [List.append_assoc]
    exact noInconsistent_append _ _ (by decide) (by decide)
  · exact checkPrometheusBestPractices_noInc _ s hs
  · rcases hm with hm | hm | hm
    · rw [hm] at hs
      exact absurd hs (by simp)
    · rw [hm] at hs
      exact absurd hs (by simp)
    · rw [hm] at hs
      exact absurd hs (by simp)

lemma secondPass_fst_noInc (dom : AggregationStyle) (dll : Bool) :
    ∀ ms : List ExprMatch,
      (∀ m ∈ ms, detectAggregationStyle (exprOf m) = AggregationStyleUnknown ∨
        detectAggregationStyle (exprOf m) = dom ∨
        dom = AggregationStyleUnknown) →
      ∀ init : List Str × Str, (∀ s ∈ init.1, noInconsistent s = true) →
      ∀ s ∈ (ms.foldl (secondPassStep dom dll) init).1, noInconsistent s = true := by
  intro ms
  induction ms with
  | nil => exact fun _ init hinit => hinit
  | cons m ms ih =>
    intro hms init hinit
    simp only [List.foldl_cons]
    refine ih (fun m' hm' => hms m' (List.mem_cons_of_mem _ hm')) _ ?_
    intro s hs
    simp only [secondPassStep, List.mem_append] at hs
    rcases hs with hs | hs
    · exact hinit s hs
    · exact matchChunk_noInc dom dll m (hms m (List.mem_cons_self _ _)) s hs

/-- C6: for every world, document and option set in which
`detectAggregationStyle` returns a non-Unknown style for at most one of the
matched expressions, `CheckAndFormatPromQL` emits no
"Inconsistent aggregation clause positioning" issue. -/
theorem CheckAndFormatPromQL_no_inconsistency (env : WorldEnv) (content : Str)
    (opts : CheckOptions)
    (h : (findExprMatches content).countP (fun m =>
      decide (detectAggregationStyle (exprOf m) ≠ AggregationStyleUnknown)) ≤ 1) :
    ∀ s ∈ (CheckAndFormatPromQL env content opts).1, noInconsistent s = true := by
  intro s hs
  unfold CheckAndFormatPromQL at hs
  simp only [List.mem_append] at hs
  rcases hs with (hs | hs) | hs
  · exact checkAlertHysteresisWithDuration_noInc env content s hs
  · split at hs
    · exact checkTimeseriesContinuity_noInc env content s hs
    · exact absurd hs (by simp)
  · rw [countP_stylable] at h
    rw [styleCounts_eq] at hs
    refine secondPass_fst_noInc _ opts.disableLineLength (findExprMatches content)
      (fun m hm => ?_) ([], content) (fun s hs' => absurd hs' (by simp)) s hs
    rcases determineDominantStyle_cases _ _ h with hd | ⟨hd, hz⟩ | ⟨hd, hz⟩
    · exact Or.inr (Or.inr hd)
    · cases hdet : detectAggregationStyle (exprOf m) with
      | AggregationStyleUnknown => exact Or.inl rfl
      | AggregationStylePostfix => exact Or.inr (Or.inl hd.symm)
      | AggregationStylePrefix =>
        refine absurd ?_ (List.countP_eq_zero.mp hz m hm)
        simp [hdet]
    · cases hdet : detectAggregationStyle (exprOf m) with
      | AggregationStyleUnknown => exact Or.inl rfl
      | AggregationStylePrefix => exact Or.inr (Or.inl hd.symm)
      | AggregationStylePostfix =>
        refine absurd ?_ (List.countP_eq_zero.mp hz m hm)
        simp [hdet]

theorem CheckAndFormatPromQL_no_inconsistency_witness :
    ((findExprMatches []).countP (fun m =>
      decide (detectAggregationStyle (exprOf m) ≠ AggregationStyleUnknown)) ≤ 1) ∧
    ∀ s ∈ (CheckAndFormatPromQL contEnvFast [] ⟨false, [], false⟩).1,
      noInconsistent s = true :=
  ⟨by decide,
    CheckAndFormatPromQL_no_inconsistency contEnvFast [] ⟨false, [], false⟩ (by decide)⟩

/-- C9, counterexample: with a Prometheus URL configured the result is not a
pure function of the in-memory strings — two worlds with identical YAML
parsing but different query-range answers (sample spacing 200s versus 60s)
yield different issue lists on the same content and options. -/
theorem CheckAndFormatPromQL_world_counterexample :
    contEnvSparse.yamlParse = contEnvFast.yamlParse ∧
    CheckAndFormatPromQL contEnvSparse [] ⟨false, strL "u", false⟩ ≠
      CheckAndFormatPromQL contEnvFast [] ⟨false, strL "u", false⟩ :=
  ⟨rfl, by decide⟩

/-- C9, amended: with no Prometheus URL configured the run is free of I/O,
and two worlds that parse YAML identically produce the same rewritten
document and the same issues up to reordering on the same content and
options. Only the permutation form transfers to the program: the
per-metric issue order follows Go's unspecified (runtime-randomized) map
iteration order in `extractMetricNames`, which the embedding's `dedupFirst`
fixes to first-occurrence order, so issue-list identity is a property of
the embedding's choice of order, not of the program. -/
theorem CheckAndFormatPromQL_pure_without_url (e1 e2 : WorldEnv) (content : Str)
    (opts : CheckOptions) (hurl : opts.prometheusURL = [])
    (hy : e1.yamlParse = e2.yamlParse) :
    (CheckAndFormatPromQL e1 content opts).1.Perm
      (CheckAndFormatPromQL e2 content opts).1 ∧
    (CheckAndFormatPromQL e1 content opts).2 =
      (CheckAndFormatPromQL e2 content opts).2 := by
  have h : CheckAndFormatPromQL e1 content opts =
      CheckAndFormatPromQL e2 content opts := by
    unfold CheckAndFormatPromQL checkAlertHysteresisWithDuration
    rw [hurl, hy]
    rfl
  rw [h]
  exact ⟨List.Perm.refl _, rfl⟩

theorem CheckAndFormatPromQL_pure_without_url_witness :
    (⟨false, [], false⟩ : CheckOptions).prometheusURL = [] ∧
    contEnvSparse.yamlParse = contEnvFast.yamlParse ∧
    (CheckAndFormatPromQL contEnvSparse (strL "expr: sum(x)") ⟨false, [], false⟩).1.Perm
      (CheckAndFormatPromQL contEnvFast (strL "expr: sum(x)") ⟨false, [], false⟩).1 ∧
    (CheckAndFormatPromQL contEnvSparse (strL "expr: sum(x)") ⟨false, [], false⟩).2 =
      (CheckAndFormatPromQL contEnvFast (strL "expr: sum(x)") ⟨false, [], false⟩).2 :=
  ⟨rfl, rfl, CheckAndFormatPromQL_pure_without_url contEnvSparse contEnvFast
    (strL "expr: sum(x)") ⟨false, [], false⟩ rfl rfl⟩
